import Mathlib

/-!
# AirlineCrewStrategy: conflict evaluator and Tabu Search

A shallow embedding of `main.go` (the generators `GeneratePilots` and
`GenerateFlights`, the scoring function `evaluate`, the move generator
`makeMove` and the `TabuSearch` loop) together with the properties
of the design document that are settled against it.

Modelling conventions

* Go `string` newtypes (`City`, `Airplane`) are `String`; a Go slice is a `List`.
* Go `int` is `Int`.  The counters of `evaluate` and `TabuSearch` are bounded by
  a small multiple of the schedule length or of `maxIterations`, so 64-bit
  wrap-around is out of reach there and is not modelled.  The 64-bit `Duration`
  of `GenerateFlights` is a count of nanoseconds and wraps within reach; it is
  modelled with `wrapInt64`.
* A Go `map[string]V` is an association list with pairwise distinct keys
  (`GoMap V`); `len` is its length.  The loops over maps in the program are
  independent of the iteration order.
* `time.Time` is an integer instant, counted in nanoseconds where durations are
  added; `Time.Format(time.RFC3339)` belongs to the standard library and is
  taken as a parameter `fmt : Time → String`.
* The global `math/rand` source is a stream of raw draws `Rand := Nat → Nat`;
  `rand.Intn n` panics for `n ≤ 0` and otherwise returns a value in `[0, n)`;
  `rand.Float64` returns a multiple of `2^-53` in `[0, 1)`.
* A Go run-time panic is an `Except.error`.
-/

namespace AirlineCrew

/-! ## Data model (main.go, lines 10-45) -/

abbrev City := String

def Riga : City := "Riga"
def Daugavpils : City := "Daugavpils"
def Liepaja : City := "LiepƒÅja"
def Jelgava : City := "Jelgava"
def Ventspils : City := "Ventspils"

abbrev Airplane := String

def Plane1 : Airplane := "Airplane 1"
def Plane2 : Airplane := "Airplane 2"
def Plane3 : Airplane := "Airplane 3"
def Plane4 : Airplane := "Airplane 4"

/-- Instants of `time.Time`. -/
abbrev Time := Int

structure Pilot where
  Name : String
  CurrentCity : City
  CurrentAirplane : Airplane
  deriving DecidableEq, Repr

structure Flight where
  FromCity : City
  ToCity : City
  Airplane : Airplane
  FirstPilot : Pilot
  Time : Time
  deriving DecidableEq, Repr

/-! ## Go maps with string keys -/

abbrev GoMap (V : Type) := List (String × V)

namespace GoMap

/-- The two-valued read `v, ok := m[k]`. -/
def get {V : Type} : GoMap V → String → Option V
  | [], _ => none
  | (k', v) :: m, k => if k' = k then some v else get m k

/-- The assignment `m[k] = v`. -/
def set {V : Type} : GoMap V → String → V → GoMap V
  | [], k, v => [(k, v)]
  | (k', v') :: m, k, v => if k' = k then (k', v) :: m else (k', v') :: set m k v

/-- The keys of the map. -/
def keys {V : Type} (m : GoMap V) : List String := m.map Prod.fst

end GoMap

/-! ## The fixed data and GeneratePilots (main.go, lines 47-63) -/

def GeneratePilots (count : Nat) : List Pilot :=
  (List.range count).map fun i =>
    { Name := "Pilot " ++ toString (i + 1), CurrentCity := Riga, CurrentAirplane := "" }

/-- Lines 48-50. -/
def GenerateCities : List City := [Riga, Daugavpils, Liepaja, Jelgava, Ventspils]

/-- Lines 52-54. -/
def GenerateAirplanes : List Airplane := [Plane1, Plane2, Plane3, Plane4]

/-! ## The conflict evaluator (main.go, lines 127-216) -/

def allowedCities : List City := [Riga, Liepaja]

def isValidFlight (flight : Flight) (isFirstFlight isLastFlight : Bool) : Bool :=
  if isFirstFlight || isLastFlight then true
  else allowedCities.any fun city => decide (flight.FromCity = city) || decide (flight.ToCity = city)

/-- Lines 149-158: one pass of the hub-rule loop, at index `i` of a schedule of length `n`. -/
def hubStep (n : Nat) (conflicts : Int) (e : Nat × Flight) : Int :=
  let isFirstFlight := decide (e.1 = 0)
  let isLastFlight := decide ((e.1 : Int) = (n : Int) - 1)
  if !isValidFlight e.2 isFirstFlight isLastFlight then conflicts + 1 else conflicts

/-- The local variables of the continuity loop (lines 160-202). -/
structure EvalState where
  conflicts : Int
  pilotLocations : GoMap City
  pilotAirplanes : GoMap Airplane

/-- Lines 164-167: seeding both maps from the roster. -/
def seedStep (s : EvalState) (pilot : Pilot) : EvalState :=
  { s with
    pilotLocations := s.pilotLocations.set pilot.Name pilot.CurrentCity
    pilotAirplanes := s.pilotAirplanes.set pilot.Name pilot.CurrentAirplane }

/-- Lines 171-182: the location check and update. -/
def locationStep (s : EvalState) (flight : Flight) : EvalState :=
  let pilotName := flight.FirstPilot.Name
  match s.pilotLocations.get pilotName with
  | some currentCity =>
    let c := if currentCity ≠ flight.FromCity then s.conflicts + 100 else s.conflicts
    { s with conflicts := c, pilotLocations := s.pilotLocations.set pilotName flight.ToCity }
  | none => { s with pilotLocations := s.pilotLocations.set pilotName flight.ToCity }

/-- Lines 184-196: the airplane check and update. -/
def airplaneStep (s : EvalState) (flight : Flight) : EvalState :=
  let pilotName := flight.FirstPilot.Name
  match s.pilotAirplanes.get pilotName with
  | some currentAirplane =>
    let c := if currentAirplane ≠ flight.Airplane then s.conflicts + 50 else s.conflicts - 10
    { s with conflicts := c, pilotAirplanes := s.pilotAirplanes.set pilotName flight.Airplane }
  | none => { s with pilotAirplanes := s.pilotAirplanes.set pilotName flight.Airplane }

/-- Lines 198-201: the idle-jump check at index `i`, reading `flights[i-1]`. -/
def jumpStep (flights : List Flight) (s : EvalState) (i : Nat) (flight : Flight) : EvalState :=
  if 0 < i then
    match flights[i - 1]? with
    | some prev =>
      if prev.FirstPilot.Name = flight.FirstPilot.Name ∧ prev.ToCity ≠ flight.FromCity then
        { s with conflicts := s.conflicts + 250 }
      else s
    | none => s
  else s

/-- Lines 169-202: the body of the continuity loop. -/
def continuityStep (flights : List Flight) (s : EvalState) (e : Nat × Flight) : EvalState :=
  jumpStep flights (airplaneStep (locationStep s e.2) e.2) e.1 e.2

/-- Lines 205-208: `pilotFlights[flight.FirstPilot.Name]++`. -/
def countStep (pilotFlights : GoMap Int) (flight : Flight) : GoMap Int :=
  pilotFlights.set flight.FirstPilot.Name ((pilotFlights.get flight.FirstPilot.Name).getD 0 + 1)

def evaluate (flights : List Flight) (pilots : List Pilot) : Int :=
  let conflicts := flights.enum.foldl (hubStep flights.length) 0
  let s0 : EvalState := pilots.foldl seedStep ⟨conflicts, [], []⟩
  let s1 := flights.enum.foldl (continuityStep flights) s0
  let pilotFlights := flights.foldl countStep ([] : GoMap Int)
  let numPilotsUsed : Int := pilotFlights.length
  s1.conflicts + numPilotsUsed * 100

/-! ## Run-time failures and the random source -/

/-- Run-time failures.  `invalidArgumentToIntn` is the panic of `rand.Intn` on a
non-positive bound, `indexOutOfRange` the panic of a slice index; `outOfFuel`
is not a Go behaviour: it marks a run of the loop model that was cut short. -/
inductive Error where
  | invalidArgumentToIntn
  | indexOutOfRange
  | outOfFuel
  deriving DecidableEq, Repr

deriving instance DecidableEq for Except

/-- The global random source: the stream of raw draws still to come. -/
abbrev Rand := Nat → Nat

/-- The call `rand.Intn(n)`: panics for `n ≤ 0`, otherwise consumes one draw and
returns a value in `[0, n)`. -/
def Intn (n : Int) (g : Rand) : Except Error (Nat × Rand) :=
  if n ≤ 0 then .error .invalidArgumentToIntn
  else .ok (g 0 % n.toNat, fun k => g (k + 1))

/-! ## Tabu Search (main.go, lines 218-293) -/

/-- Lines 226-228. -/
def generateTabuKey (fmt : Time → String) (flight : Flight) : String :=
  flight.FirstPilot.Name ++ flight.Airplane ++ fmt flight.Time

/-- The index expression `newSolution[i].FirstPilot` as a value. -/
def getFirstPilot (l : List Flight) (i : Nat) : Except Error Pilot :=
  match l[i]? with
  | some f => .ok f.FirstPilot
  | none => .error .indexOutOfRange

/-- The assignment `newSolution[i].FirstPilot = p`. -/
def setFirstPilot (l : List Flight) (i : Nat) (p : Pilot) : Except Error (List Flight) :=
  match l[i]? with
  | some f => .ok (l.set i { f with FirstPilot := p })
  | none => .error .indexOutOfRange

/-- Line 240: the tuple assignment swapping the pilots at `i` and `j`. -/
def swapPilots (newSolution : List Flight) (i j : Nat) : Except Error (List Flight) :=
  match getFirstPilot newSolution j, getFirstPilot newSolution i with
  | .ok pj, .ok pi =>
    match setFirstPilot newSolution i pj with
    | .ok s1 => setFirstPilot s1 j pi
    | .error e => .error e
  | .error e, _ => .error e
  | _, .error e => .error e

/-- Lines 231-243.  The copy of the input is the input value itself. -/
def makeMove (flights : List Flight) (g : Rand) : Except Error (List Flight × Rand) :=
  let newSolution := flights
  match Intn ((flights.length : Int) - 1) g with
  | .error e => .error e
  | .ok (i, g') =>
    let j := i + 1
    match swapPilots newSolution i j with
    | .error e => .error e
    | .ok r => .ok (r, g')

/-- Lines 256-261: one pass of the tabu penalty loop. -/
def tabuPenaltyStep (fmt : Time → String) (tabuList : GoMap Int) (newConflicts : Int)
    (flight : Flight) : Int :=
  match tabuList.get (generateTabuKey fmt flight) with
  | some tenure => if tenure > 0 then newConflicts + 1000 else newConflicts
  | none => newConflicts

/-- Lines 253-261: the penalised cost of a candidate. -/
def candidateCost (fmt : Time → String) (pilots : List Pilot) (tabuList : GoMap Int)
    (newSolution : List Flight) : Int :=
  newSolution.foldl (tabuPenaltyStep fmt tabuList) (evaluate newSolution pilots)

/-- Lines 268-271: one pass of the commit loop. -/
def commitStep (fmt : Time → String) (tabuTenure : Int) (tabuList : GoMap Int)
    (flight : Flight) : GoMap Int :=
  tabuList.set (generateTabuKey fmt flight) tabuTenure

/-- Lines 280-284: the decay loop. -/
def decay (tabuList : GoMap Int) : GoMap Int :=
  tabuList.map fun e => if e.2 > 0 then (e.1, e.2 - 1) else e

/-- The variables of `TabuSearch`, with the state of the random source. -/
structure SearchState where
  bestSolution : List Flight
  currentSolution : List Flight
  tabuList : GoMap Int
  iteration : Int
  rng : Rand

/-- Lines 253-272: scoring the candidate and the acceptance test. -/
def acceptStep (fmt : Time → String) (pilots : List Pilot) (tabuTenure : Int)
    (s : SearchState) (newSolution : List Flight) : SearchState :=
  if candidateCost fmt pilots s.tabuList newSolution < evaluate s.currentSolution pilots then
    { s with
      currentSolution := newSolution
      tabuList := newSolution.foldl (commitStep fmt tabuTenure) s.tabuList }
  else s

/-- Lines 275-277. -/
def updateBest (pilots : List Pilot) (s : SearchState) : SearchState :=
  if evaluate s.currentSolution pilots < evaluate s.bestSolution pilots then
    { s with bestSolution := s.currentSolution }
  else s

/-- Lines 247-284: one iteration of the main loop, up to the early-exit test. -/
def iterationBody (fmt : Time → String) (pilots : List Pilot) (tabuTenure : Int)
    (s : SearchState) : Except Error SearchState :=
  match makeMove s.currentSolution s.rng with
  | .error e => .error e
  | .ok (newSolution, g) =>
    let s1 : SearchState := { s with iteration := s.iteration + 1, rng := g }
    let s2 := updateBest pilots (acceptStep fmt pilots tabuTenure s1 newSolution)
    .ok { s2 with tabuList := decay s2.tabuList }

/-- Lines 246-290.  The loop, returning the states reached at the end of each
executed iteration, in order.  The first argument bounds the number of
iterations; a run that would need more ends in `Error.outOfFuel`. -/
def searchLoop (fmt : Time → String) (pilots : List Pilot) (maxIterations tabuTenure : Int) :
    Nat → SearchState → Except Error (List SearchState)
  | 0, s => if s.iteration < maxIterations then .error .outOfFuel else .ok []
  | fuel + 1, s =>
    if s.iteration < maxIterations then
      match iterationBody fmt pilots tabuTenure s with
      | .error e => .error e
      | .ok s' =>
        if evaluate s'.bestSolution pilots = 0 then .ok [s']
        else
          match searchLoop fmt pilots maxIterations tabuTenure fuel s' with
          | .error e => .error e
          | .ok tr => .ok (s' :: tr)
    else .ok []

/-- Lines 220-223. -/
def initialState (flights : List Flight) (g : Rand) : SearchState :=
  { bestSolution := flights, currentSolution := flights, tabuList := [], iteration := 0, rng := g }

/-- The states at the end of every executed iteration of `TabuSearch`. -/
def TabuSearchTrace (fmt : Time → String) (flights : List Flight) (pilots : List Pilot)
    (maxIterations tabuTenure : Int) (g : Rand) : Except Error (List SearchState) :=
  searchLoop fmt pilots maxIterations tabuTenure maxIterations.toNat (initialState flights g)

/-- The state in which the loop is left. -/
def finalState (flights : List Flight) (g : Rand) (tr : List SearchState) : SearchState :=
  tr.getLast?.getD (initialState flights g)

def TabuSearch (fmt : Time → String) (flights : List Flight) (pilots : List Pilot)
    (maxIterations tabuTenure : Int) (g : Rand) : Except Error (List Flight) :=
  match TabuSearchTrace fmt flights pilots maxIterations tabuTenure g with
  | .error e => .error e
  | .ok tr => .ok (finalState flights g tr).bestSolution

/-! ## GenerateFlights (main.go, lines 65-125) -/

/-- The constant `time.Hour`, in nanoseconds. -/
def Hour : Int := 3600000000000

/-- The value kept by a signed 64-bit integer: wrap-around modulo `2^64`. -/
def wrapInt64 (x : Int) : Int := (x + 2 ^ 63) % 2 ^ 64 - 2 ^ 63

/-- Line 110: `baseTime.Add(time.Duration(i*2) * time.Hour)`.  The product is computed in
64-bit `Duration` arithmetic; `Add` moves the instant by that many nanoseconds. -/
def flightTime (baseTime : Time) (i : Nat) : Time :=
  baseTime + wrapInt64 (wrapInt64 ((i : Int) * 2) * Hour)

/-- The call `rand.Float64()`: consumes one draw and returns a multiple `k / 2^53` of
`2^-53` in `[0, 1)`; the numerator `k` stands for it. -/
def Float64 (g : Rand) : Nat × Rand := (g 0 % 2 ^ 53, fun k => g (k + 1))

/-- The float64 constant `0.7` is `6305039478318694 / 2^53`. -/
def float07 : Nat := 6305039478318694

/-- The float64 constant `0.5` is `2^52 / 2^53`. -/
def float05 : Nat := 4503599627370496

/-- An assignment `candidate = c` that discards the value held before. -/
def overwrite (_old : City) (c : City) : City := c

/-- Lines 93-96: the retry loop of `chooseCity`.  The first argument bounds the number of
retries; a run that would need more ends in `Error.outOfFuel`. -/
def retryCity (cities : List City) (exclude : City) : Nat → City → Rand → Except Error (City × Rand)
  | 0, candidate, g => if candidate = exclude then .error .outOfFuel else .ok (candidate, g)
  | fuel + 1, candidate, g =>
    if candidate = exclude then
      match Intn cities.length g with
      | .error e => .error e
      | .ok (i, g') =>
        match cities[i]? with
        | none => .error .indexOutOfRange
        | some c => retryCity cities exclude fuel c g'
    else .ok (candidate, g)

/-- Lines 82-97. -/
def chooseCity (fuel : Nat) (cities : List City) (exclude : City) (g : Rand) :
    Except Error (City × Rand) :=
  match Intn cities.length g with
  | .error e => .error e
  | .ok (i, g1) =>
    match cities[i]? with
    | none => .error .indexOutOfRange
    | some candidate =>
      if (Float64 g1).1 < float07 then
        let candidate := if (Float64 (Float64 g1).2).1 < float05 then Riga else candidate
        let candidate := overwrite candidate Liepaja
        retryCity cities exclude fuel candidate (Float64 (Float64 g1).2).2
      else retryCity cities exclude fuel candidate (Float64 g1).2

/-- Lines 73-79: one pass of the loop that places the airplanes. -/
def placeStep (planeLocations : GoMap City) (e : Nat × Airplane) : GoMap City :=
  if e.1 % 2 = 0 then planeLocations.set e.2 Riga else planeLocations.set e.2 Liepaja

/-- The variables of the flight loop of `GenerateFlights`, with the random source. -/
structure GenState where
  flights : List Flight
  planeLocations : GoMap City
  rng : Rand

/-- Lines 104-121: the body of the flight loop at index `i`. -/
def flightStep (fuel : Nat) (cities : List City) (airplanes : List Airplane)
    (pilots : List Pilot) (baseTime : Time) (i : Nat) (st : GenState) : Except Error GenState :=
  match Intn airplanes.length st.rng with
  | .error e => .error e
  | .ok (ia, g1) =>
    match airplanes[ia]? with
    | none => .error .indexOutOfRange
    | some airplane =>
      let fromCity := (st.planeLocations.get airplane).getD ""
      match chooseCity fuel cities fromCity g1 with
      | .error e => .error e
      | .ok (toCity, g2) =>
        match Intn pilots.length g2 with
        | .error e => .error e
        | .ok (ip, g3) =>
          match pilots[ip]? with
          | none => .error .indexOutOfRange
          | some firstPilot =>
            .ok { flights := st.flights ++ [⟨fromCity, toCity, airplane, firstPilot,
                    flightTime baseTime i⟩]
                  planeLocations := st.planeLocations.set airplane toCity
                  rng := g3 }

/-- Lines 103-122: the flight loop, with `rem` passes left, the next one at index `i`. -/
def flightLoop (fuel : Nat) (cities : List City) (airplanes : List Airplane)
    (pilots : List Pilot) (baseTime : Time) : Nat → Nat → GenState → Except Error GenState
  | 0, _, st => .ok st
  | rem + 1, i, st =>
    match flightStep fuel cities airplanes pilots baseTime i st with
    | .error e => .error e
    | .ok st' => flightLoop fuel cities airplanes pilots baseTime rem (i + 1) st'

/-- Lines 66-125.  `baseTime` is the value of `time.Now()`, `fuel` bounds the retries of
each call of `chooseCity`. -/
def GenerateFlights (fuel : Nat) (cities : List City) (airplanes : List Airplane)
    (pilots : List Pilot) (numFlights : Nat) (baseTime : Time) (g : Rand) :
    Except Error (List Flight) :=
  match flightLoop fuel cities airplanes pilots baseTime numFlights 0
      { flights := [], planeLocations := airplanes.enum.foldl placeStep [], rng := g } with
  | .error e => .error e
  | .ok st => .ok st.flights

/-! ## The cost formula of the design document

The five terms of the cost, written as closed expressions over the indices of
the schedule; they are compared with `evaluate` below. -/
/-- Membership in the hub set `{Riga, Liepaja}`. -/
def isHub (c : City) : Bool := decide (c = Riga) || decide (c = Liepaja)

/-- The latest flight before index `i` flown by the pilot called `name`. -/
def lastFlightOf (fs : List Flight) (i : Nat) (name : String) : Option Flight :=
  (fs.take i).reverse.find? fun f => decide (f.FirstPilot.Name = name)

/-- The roster entry called `name` (the last one, should the roster repeat a name). -/
def rosterEntry (ps : List Pilot) (name : String) : Option Pilot :=
  ps.reverse.find? fun p => decide (p.Name = name)

/-- The tracked city of `name` when flight `i` is scored. -/
def trackedCity (fs : List Flight) (ps : List Pilot) (i : Nat) (name : String) : Option City :=
  match lastFlightOf fs i name with
  | some f => some f.ToCity
  | none => (rosterEntry ps name).map Pilot.CurrentCity

/-- The tracked airplane of `name` when flight `i` is scored. -/
def trackedAirplane (fs : List Flight) (ps : List Pilot) (i : Nat) (name : String) :
    Option Airplane :=
  match lastFlightOf fs i name with
  | some f => some f.Airplane
  | none => (rosterEntry ps name).map Pilot.CurrentAirplane

/-- Index `i` is an inner flight with both cities outside the hub set. -/
def hubViolation (fs : List Flight) (i : Nat) : Bool :=
  match fs[i]? with
  | some f => decide (0 < i) && decide ((i : Int) < (fs.length : Int) - 1) &&
      !isHub f.FromCity && !isHub f.ToCity
  | none => false

/-- The pilot of flight `i` has a tracked city different from the departure city. -/
def locationConflict (fs : List Flight) (ps : List Pilot) (i : Nat) : Bool :=
  match fs[i]? with
  | some f =>
    match trackedCity fs ps i f.FirstPilot.Name with
    | some c => decide (c ≠ f.FromCity)
    | none => false
  | none => false

/-- The airplane term of flight `i`: `-10` on a match, `+50` on a difference. -/
def airplaneTerm (fs : List Flight) (ps : List Pilot) (i : Nat) : Int :=
  match fs[i]? with
  | some f =>
    match trackedAirplane fs ps i f.FirstPilot.Name with
    | some a => if a = f.Airplane then -10 else 50
    | none => 0
  | none => 0

/-- Flights `i-1` and `i` have the same pilot name and do not connect. -/
def idleJump (fs : List Flight) (i : Nat) : Bool :=
  decide (0 < i) &&
    match fs[i - 1]?, fs[i]? with
    | some p, some f => decide (p.FirstPilot.Name = f.FirstPilot.Name) && decide (p.ToCity ≠ f.FromCity)
    | _, _ => false

def hubCount (fs : List Flight) : Nat := (List.range fs.length).countP (hubViolation fs)

def locationCount (fs : List Flight) (ps : List Pilot) : Nat :=
  (List.range fs.length).countP (locationConflict fs ps)

def airplaneSum (fs : List Flight) (ps : List Pilot) : Int :=
  ((List.range fs.length).map (airplaneTerm fs ps)).sum

def jumpCount (fs : List Flight) : Nat := (List.range fs.length).countP (idleJump fs)

/-- The number of distinct pilot names occurring in the schedule. -/
def distinctPilots (fs : List Flight) : Nat := (fs.map fun f => f.FirstPilot.Name).dedup.length

/-- The contribution of index `k` to the continuity loop. -/
def continuityTerm (fs : List Flight) (ps : List Pilot) (k : Nat) : Int :=
  (if locationConflict fs ps k then 100 else 0) + airplaneTerm fs ps k
    + (if idleJump fs k then 250 else 0)

/-- The maps of the continuity loop hold the tracked city and airplane of every name. -/
def MapsTrack (fs : List Flight) (ps : List Pilot) (s : EvalState) (k : Nat) : Prop :=
  ∀ name, GoMap.get s.pilotLocations name = trackedCity fs ps k name ∧
    GoMap.get s.pilotAirplanes name = trackedAirplane fs ps k name

/-! ## Predicates on schedules and runs -/

/-- The key is tracked with a positive tenure. -/
def isTabu (tabuList : GoMap Int) (key : String) : Bool :=
  match tabuList.get key with
  | some tenure => decide (0 < tenure)
  | none => false

/-- The part of a flight that no move touches. -/
def legOf (f : Flight) : City × City × Airplane × Time :=
  (f.FromCity, f.ToCity, f.Airplane, f.Time)

/-- The schedule `x` has the legs of `flights` at every index and a permutation of its
pilots. -/
def SameLegsPermPilots (flights x : List Flight) : Prop :=
  x.length = flights.length ∧
  (∀ k : Nat, x[k]?.map legOf = flights[k]?.map legOf) ∧
  (x.map Flight.FirstPilot).Perm (flights.map Flight.FirstPilot)

/-- The schedule obtained by exchanging the pilots of `a` and `b`, two consecutive
flights after the prefix `pre`. -/
def swapped (pre : List Flight) (a b : Flight) (post : List Flight) : List Flight :=
  pre ++ { a with FirstPilot := b.FirstPilot } :: { b with FirstPilot := a.FirstPilot } :: post

/-- The trace `tr` is what the loop produces from `s`: every state is the result of one
iteration from its predecessor, the loop condition held before each of them, and the trace
stops at the first state with best cost `0` or when the condition fails. -/
def TraceOK (fmt : Time → String) (pilots : List Pilot) (maxIterations tabuTenure : Int) :
    SearchState → List SearchState → Prop
  | s, [] => ¬ s.iteration < maxIterations
  | s, s' :: tr =>
    s.iteration < maxIterations ∧ iterationBody fmt pilots tabuTenure s = .ok s' ∧
      (if evaluate s'.bestSolution pilots = 0 then tr = []
       else TraceOK fmt pilots maxIterations tabuTenure s' tr)

/-- The invariant of the loop used below: both schedules keep the legs of the input and a
permutation of its pilots, and the best cost does not exceed the initial cost. -/
def SearchInv (flights : List Flight) (pilots : List Pilot) (s : SearchState) : Prop :=
  (SameLegsPermPilots flights s.currentSolution ∧ SameLegsPermPilots flights s.bestSolution) ∧
    evaluate s.bestSolution pilots ≤ evaluate flights pilots

/-- One decay of a tenure: a positive tenure loses `1`, any other is kept. -/
def decayed (t : Int) : Int := if t > 0 then t - 1 else t

/-- What one iteration from `s` to `s'` does to the tabu list: every key holds the decayed
tenure of the acceptance step, and the acceptance step changes the entry of a key only by
setting it to `tabuTenure`, when the candidate is accepted, becomes the current schedule and
has a flight with that key. -/
def TenureStep (fmt : Time → String) (pilots : List Pilot) (tabuTenure : Int)
    (s s' : SearchState) : Prop :=
  ∃ cand g', makeMove s.currentSolution s.rng = .ok (cand, g') ∧
    ∀ k, GoMap.get s'.tabuList k
        = (GoMap.get (acceptStep fmt pilots tabuTenure s cand).tabuList k).map decayed ∧
      (GoMap.get (acceptStep fmt pilots tabuTenure s cand).tabuList k = GoMap.get s.tabuList k ∨
        (candidateCost fmt pilots s.tabuList cand < evaluate s.currentSolution pilots ∧
          s'.currentSolution = cand ∧ (∃ f ∈ s'.currentSolution, generateTabuKey fmt f = k) ∧
          GoMap.get (acceptStep fmt pilots tabuTenure s cand).tabuList k = some tabuTenure))

/-- The iteration from `s` to `s'` is a strict descent: an accepted candidate costs strictly
less than the previous current schedule and becomes the current one, a rejected candidate
leaves the current schedule as it was. -/
def DescentStep (fmt : Time → String) (pilots : List Pilot) (s s' : SearchState) : Prop :=
  ∃ cand g', makeMove s.currentSolution s.rng = .ok (cand, g') ∧
    (candidateCost fmt pilots s.tabuList cand < evaluate s.currentSolution pilots →
      s'.currentSolution = cand ∧ evaluate cand pilots < evaluate s.currentSolution pilots) ∧
    (¬ candidateCost fmt pilots s.tabuList cand < evaluate s.currentSolution pilots →
      s'.currentSolution = s.currentSolution)

/-- The iteration that starts in state `s` accepts its candidate (lines 250-264). -/
def accepts (fmt : Time → String) (pilots : List Pilot) (s : SearchState) : Bool :=
  match makeMove s.currentSolution s.rng with
  | .ok (cand, _) =>
    decide (candidateCost fmt pilots s.tabuList cand < evaluate s.currentSolution pilots)
  | .error _ => false

/-! ## The search without tabu memory -/

/-- The variables of the search without tabu memory. -/
structure ClimbState where
  bestSolution : List Flight
  currentSolution : List Flight
  iteration : Int
  rng : Rand

/-- One iteration of the loop of `TabuSearch` with the tabu penalty and the tabu list
removed: the candidate is accepted exactly when it costs strictly less than the current
schedule. -/
def climbBody (pilots : List Pilot) (s : ClimbState) : Except Error ClimbState :=
  match makeMove s.currentSolution s.rng with
  | .error e => .error e
  | .ok (newSolution, g) =>
    let current :=
      if evaluate newSolution pilots < evaluate s.currentSolution pilots then newSolution
      else s.currentSolution
    let best :=
      if evaluate current pilots < evaluate s.bestSolution pilots then current
      else s.bestSolution
    .ok { bestSolution := best, currentSolution := current, iteration := s.iteration + 1, rng := g }

/-- The loop of `TabuSearch` without tabu memory, returning the state in which it is left. -/
def climbLoop (pilots : List Pilot) (maxIterations : Int) :
    Nat → ClimbState → Except Error ClimbState
  | 0, s => if s.iteration < maxIterations then .error .outOfFuel else .ok s
  | fuel + 1, s =>
    if s.iteration < maxIterations then
      match climbBody pilots s with
      | .error e => .error e
      | .ok s' =>
        if evaluate s'.bestSolution pilots = 0 then .ok s'
        else climbLoop pilots maxIterations fuel s'
    else .ok s

/-- Plain strict hill-climbing: `TabuSearch` with the tabu penalty and the tabu list
removed. -/
def HillClimb (flights : List Flight) (pilots : List Pilot) (maxIterations : Int) (g : Rand) :
    Except Error (List Flight) :=
  match climbLoop pilots maxIterations maxIterations.toNat
      { bestSolution := flights, currentSolution := flights, iteration := 0, rng := g } with
  | .error e => .error e
  | .ok s => .ok s.bestSolution

/-- The search state and the hill-climbing state agree, and no key is tabu. -/
def ClimbSim (s : SearchState) (c : ClimbState) : Prop :=
  s.bestSolution = c.bestSolution ∧ s.currentSolution = c.currentSolution ∧
    s.iteration = c.iteration ∧ s.rng = c.rng ∧
    ∀ k t, GoMap.get s.tabuList k = some t → t ≤ 0

/-! ## Predicates on generated pilots and flights -/

/-- The number written by a list of decimal digit characters. -/
def digitsValue (cs : List Char) : Nat :=
  cs.foldl (fun acc c => 10 * acc + (c.toNat - 48)) 0

/-- The initial location of the airplane `a`: Riga if its last occurrence in the list of
airplanes is at an even position, Liepaja if it is at an odd one. -/
def initialLocation (airplanes : List Airplane) (a : Airplane) : Option City :=
  (airplanes.enum.reverse.find? fun e => decide (e.2 = a)).map fun e =>
    if e.1 % 2 = 0 then Riga else Liepaja

/-- The closest flight before index `i` that uses the airplane `a`. -/
def lastFlightUsing (fs : List Flight) (i : Nat) (a : Airplane) : Option Flight :=
  (fs.take i).reverse.find? fun f => decide (f.Airplane = a)

/-- Where the airplane `a` stands when flight `i` is generated: the destination of the
closest earlier flight using it, or else its initial location. -/
def planeLocationBefore (airplanes : List Airplane) (fs : List Flight) (i : Nat) (a : Airplane) :
    Option City :=
  match lastFlightUsing fs i a with
  | some f => some f.ToCity
  | none => initialLocation airplanes a

/-- What the flight loop guarantees for each generated flight. -/
def FlightsOK (airplanes : List Airplane) (pilots : List Pilot) (baseTime : Time)
    (fs : List Flight) : Prop :=
  ∀ (j : Nat) (f : Flight), fs[j]? = some f →
    f.Time = flightTime baseTime j ∧ f.FromCity ≠ f.ToCity ∧ f.FirstPilot ∈ pilots ∧
      planeLocationBefore airplanes fs j f.Airplane = some f.FromCity

/-- The invariant of the flight loop before the pass at index `i`. -/
def GenInv (airplanes : List Airplane) (pilots : List Pilot) (baseTime : Time) (i : Nat)
    (st : GenState) : Prop :=
  st.flights.length = i ∧
  (∀ a, GoMap.get st.planeLocations a
    = planeLocationBefore airplanes st.flights st.flights.length a) ∧
  FlightsOK airplanes pilots baseTime st.flights

/-! ## Concrete inputs -/

/-- A formatter for concrete runs: the decimal rendering of the instant. -/
def exFmt : Time → String := fun t => toString t

def pilotA : Pilot := ⟨"Pilot 1", Riga, ""⟩

def pilotB : Pilot := ⟨"Pilot 2", Riga, ""⟩

/-- A three-leg day on one airplane. -/
def exFlights : List Flight :=
  [⟨Riga, Jelgava, Plane1, pilotA, 0⟩, ⟨Jelgava, Riga, Plane1, pilotB, 7200⟩,
    ⟨Riga, Ventspils, Plane1, pilotA, 14400⟩]

/-- A four-leg day on one airplane. -/
def exFlights4 : List Flight :=
  [⟨Riga, Jelgava, Plane1, pilotA, 0⟩, ⟨Jelgava, Riga, Plane1, pilotB, 7200⟩,
    ⟨Riga, Ventspils, Plane1, pilotA, 14400⟩, ⟨Ventspils, Riga, Plane1, pilotA, 21600⟩]

/-- The random source drawing `0, 1, 2, ...`. -/
def exRand : Rand := fun k => k

/-- The random source that always draws `0`. -/
def zeroRand : Rand := fun _ => 0

/-- The scenario of the design document: three legs `H→H`, `H→X`, `X→H` flown by `A` on
the airplane `P`. -/
def scenarioFlights (H X : City) (P : Airplane) (A : Pilot) (t1 t2 t3 : Time) : List Flight :=
  [⟨H, H, P, A, t1⟩, ⟨H, X, P, A, t2⟩, ⟨X, H, P, A, t3⟩]

/-- A pilot whose roster airplane is `Plane1`. -/
def pilotC : Pilot := ⟨"Pilot 3", Riga, Plane1⟩

/-- A day of `n` legs `Riga → Riga` on `Plane1`, all flown by `pilotC`. -/
def shuttleFlights (n : Nat) : List Flight :=
  (List.range n).map fun i => ⟨Riga, Riga, Plane1, pilotC, 7200 * (i : Int)⟩

/-! ## Maps -/

theorem GoMap.get_set {V : Type} (m : GoMap V) (k : String) (v : V) (k' : String) :
    (m.set k v).get k' = if k = k' then some v else m.get k' := by
  induction m with
  | nil => simp [GoMap.set, GoMap.get]
  | cons e m ih =>
    obtain ⟨a, b⟩ := e
    by_cases h : a = k
    · subst h
      by_cases h' : a = k' <;> simp [GoMap.set, GoMap.get, h']
    · by_cases h' : a = k'
      · subst h'
        have : ¬ k = a := fun e => h e.symm
        simp [GoMap.set, GoMap.get, h, this]
      · simp [GoMap.set, GoMap.get, h, h', ih]

theorem GoMap.mem_keys_set {V : Type} (m : GoMap V) (k : String) (v : V) (k' : String) :
    k' ∈ (m.set k v).keys ↔ k' = k ∨ k' ∈ m.keys := by
  induction m with
  | nil => simp [GoMap.set, GoMap.keys]
  | cons e m ih =>
    obtain ⟨a, b⟩ := e
    by_cases h : a = k
    · subst h
      simp [GoMap.set, GoMap.keys]
    · simp only [GoMap.keys] at ih
      simp only [GoMap.set, h, if_false, GoMap.keys, List.map_cons, List.mem_cons, ih]
      tauto

theorem GoMap.nodup_keys_set {V : Type} (m : GoMap V) (k : String) (v : V)
    (h : m.keys.Nodup) : (m.set k v).keys.Nodup := by
  induction m with
  | nil => simp [GoMap.set, GoMap.keys]
  | cons e m ih =>
    obtain ⟨a, b⟩ := e
    have h1 : a ∉ GoMap.keys m ∧ (GoMap.keys m).Nodup := by simpa [GoMap.keys] using h
    by_cases hk : a = k
    · subst hk
      simpa [GoMap.set, GoMap.keys] using h
    · have h2 : a ∉ GoMap.keys (GoMap.set m k v) := by
        rw [GoMap.mem_keys_set]
        rintro (e | e)
        · exact hk e
        · exact h1.1 e
      have h3 := ih h1.2
      simp only [GoMap.keys] at h2 h3
      simp [GoMap.set, hk, GoMap.keys, h2, h3]


/-! ## The evaluator computes the cost formula -/


theorem countP_eq_sum (l : List Nat) (p : Nat → Bool) :
    ((l.countP p : Nat) : Int) = (l.map fun i => if p i then (1 : Int) else 0).sum := by
  induction l with
  | nil => simp
  | cons a l ih =>
    by_cases h : p a
    · simp [List.countP_cons, h, ih]; ring
    · simp [List.countP_cons, h, ih]

theorem getElem?_append_cons_length (pre : List Flight) (f : Flight) (l : List Flight) :
    (pre ++ f :: l)[pre.length]? = some f := by
  rw [List.getElem?_append_right (le_refl _)]
  simp

theorem foldl_enumFrom_add (fs : List Flight) (step : Int → Nat × Flight → Int)
    (term : Nat → Int)
    (hstep : ∀ c k f, fs[k]? = some f → step c (k, f) = c + term k) :
    ∀ (l pre : List Flight) (c : Int), fs = pre ++ l →
      (l.enumFrom pre.length).foldl step c
        = c + ((List.range' pre.length l.length).map term).sum := by
  intro l
  induction l with
  | nil => intro pre c _; simp
  | cons f l ih =>
    intro pre c h
    have hf : fs[pre.length]? = some f := by rw [h]; exact getElem?_append_cons_length pre f l
    have h' : fs = (pre ++ [f]) ++ l := by rw [h]; simp
    have := ih (pre ++ [f]) (step c (pre.length, f)) h'
    simp only [List.length_append, List.length_singleton] at this
    rw [hstep c _ f hf] at this
    simp only [List.enumFrom_cons, List.foldl_cons, List.length_cons, List.range'_succ,
      List.map_cons, List.sum_cons]
    rw [hstep c _ f hf, this, add_assoc]

theorem hubStep_eq (fs : List Flight) (c : Int) (k : Nat) (f : Flight) (h : fs[k]? = some f) :
    hubStep fs.length c (k, f) = c + (if hubViolation fs k then 1 else 0) := by
  have hk : k < fs.length := by
    by_contra hc
    rw [List.getElem?_eq_none (by omega)] at h
    exact absurd h (by simp)
  by_cases h0 : k = 0
  · subst h0
    simp [hubStep, hubViolation, h, isValidFlight]
  · by_cases h1 : (k : Int) = (fs.length : Int) - 1
    · simp [hubStep, hubViolation, h, isValidFlight, h1]
    · have h2 : (k : Int) < (fs.length : Int) - 1 := by omega
      have h3 : 0 < k := by omega
      simp only [hubStep, hubViolation, h, isValidFlight, h0, h1, h2, h3, allowedCities, isHub]
      by_cases a1 : f.FromCity = Riga <;> by_cases a2 : f.FromCity = Liepaja <;>
        by_cases a3 : f.ToCity = Riga <;> by_cases a4 : f.ToCity = Liepaja <;>
        simp [a1, a2, a3, a4]

theorem hubLoop_eq (fs : List Flight) :
    fs.enum.foldl (hubStep fs.length) 0 = (hubCount fs : Int) := by
  have := foldl_enumFrom_add fs (hubStep fs.length) (fun k => if hubViolation fs k then 1 else 0)
    (hubStep_eq fs) fs [] 0 (by simp)
  simp only [List.length_nil, zero_add] at this
  rw [List.enum, this, hubCount, countP_eq_sum, List.range_eq_range']

theorem lastFlightOf_succ (fs : List Flight) (k : Nat) (f : Flight) (name : String)
    (h : fs[k]? = some f) :
    lastFlightOf fs (k + 1) name
      = if f.FirstPilot.Name = name then some f else lastFlightOf fs k name := by
  simp only [lastFlightOf, List.take_succ, h, Option.toList, List.reverse_append,
    List.reverse_cons, List.reverse_nil, List.nil_append, List.singleton_append, List.find?_cons]
  by_cases hn : f.FirstPilot.Name = name <;> simp [hn]

theorem rosterEntry_append (ps : List Pilot) (p : Pilot) (name : String) :
    rosterEntry (ps ++ [p]) name = if p.Name = name then some p else rosterEntry ps name := by
  simp only [rosterEntry, List.reverse_append, List.reverse_cons, List.reverse_nil,
    List.nil_append, List.singleton_append, List.find?_cons]
  by_cases hn : p.Name = name <;> simp [hn]

theorem seedLoop_spec (ps : List Pilot) (c : Int) :
    (ps.foldl seedStep ⟨c, [], []⟩).conflicts = c ∧
    ∀ name,
      GoMap.get (ps.foldl seedStep ⟨c, [], []⟩).pilotLocations name
        = (rosterEntry ps name).map Pilot.CurrentCity ∧
      GoMap.get (ps.foldl seedStep ⟨c, [], []⟩).pilotAirplanes name
        = (rosterEntry ps name).map Pilot.CurrentAirplane := by
  induction ps using List.reverseRecOn with
  | nil => simp [rosterEntry, GoMap.get]
  | append_singleton ps p ih =>
    rw [List.foldl_append]
    refine ⟨by simpa [seedStep] using ih.1, fun name => ?_⟩
    simp only [List.foldl_cons, List.foldl_nil, seedStep, GoMap.get_set, rosterEntry_append]
    by_cases hn : p.Name = name
    · simp [hn]
    · simp [hn, ih.2 name]

theorem locationStep_spec (s : EvalState) (f : Flight) :
    (locationStep s f).conflicts = s.conflicts +
      (match GoMap.get s.pilotLocations f.FirstPilot.Name with
        | some c => if c ≠ f.FromCity then 100 else 0
        | none => 0) ∧
    (locationStep s f).pilotLocations = GoMap.set s.pilotLocations f.FirstPilot.Name f.ToCity ∧
    (locationStep s f).pilotAirplanes = s.pilotAirplanes := by
  cases hL : GoMap.get s.pilotLocations f.FirstPilot.Name with
  | none => simp [locationStep, hL]
  | some c => by_cases h : c = f.FromCity <;> simp [locationStep, hL, h]

theorem airplaneStep_spec (s : EvalState) (f : Flight) :
    (airplaneStep s f).conflicts = s.conflicts +
      (match GoMap.get s.pilotAirplanes f.FirstPilot.Name with
        | some a => if a = f.Airplane then -10 else 50
        | none => 0) ∧
    (airplaneStep s f).pilotLocations = s.pilotLocations ∧
    (airplaneStep s f).pilotAirplanes = GoMap.set s.pilotAirplanes f.FirstPilot.Name f.Airplane := by
  cases hL : GoMap.get s.pilotAirplanes f.FirstPilot.Name with
  | none => simp [airplaneStep, hL]
  | some c => by_cases h : c = f.Airplane <;> simp [airplaneStep, hL, h, sub_eq_add_neg]

theorem jumpStep_spec (fs : List Flight) (s : EvalState) (k : Nat) (f : Flight)
    (h : fs[k]? = some f) :
    (jumpStep fs s k f).conflicts = s.conflicts + (if idleJump fs k then 250 else 0) ∧
    (jumpStep fs s k f).pilotLocations = s.pilotLocations ∧
    (jumpStep fs s k f).pilotAirplanes = s.pilotAirplanes := by
  unfold jumpStep idleJump
  by_cases hk : 0 < k
  · cases hp : fs[k - 1]? with
    | none => simp [hk, h]
    | some p =>
      by_cases h1 : p.FirstPilot.Name = f.FirstPilot.Name <;>
        by_cases h2 : p.ToCity = f.FromCity <;> simp [hk, h, h1, h2]
  · simp [hk]

theorem continuityStep_spec (fs : List Flight) (ps : List Pilot) (s : EvalState) (k : Nat)
    (f : Flight) (h : fs[k]? = some f) (hm : MapsTrack fs ps s k) :
    (continuityStep fs s (k, f)).conflicts = s.conflicts + continuityTerm fs ps k ∧
    MapsTrack fs ps (continuityStep fs s (k, f)) (k + 1) := by
  have hloc := (hm f.FirstPilot.Name).1
  have hair := (hm f.FirstPilot.Name).2
  obtain ⟨l1, l2, l3⟩ := locationStep_spec s f
  obtain ⟨a1, a2, a3⟩ := airplaneStep_spec (locationStep s f) f
  obtain ⟨j1, j2, j3⟩ := jumpStep_spec fs (airplaneStep (locationStep s f) f) k f h
  constructor
  · simp only [continuityStep]
    rw [j1, a1, l1, l3, hloc, hair]
    simp only [continuityTerm, locationConflict, airplaneTerm, h]
    generalize (if idleJump fs k = true then (250 : Int) else 0) = J
    generalize trackedCity fs ps k f.FirstPilot.Name = tc
    generalize trackedAirplane fs ps k f.FirstPilot.Name = ta
    rcases tc with _ | c <;> rcases ta with _ | a <;> simp only []
    · simp
    · by_cases ha : a = f.Airplane <;> simp [ha] <;> ring
    · by_cases hc : c = f.FromCity <;> simp [hc]; ring
    · by_cases ha : a = f.Airplane <;> by_cases hc : c = f.FromCity <;> simp [ha, hc] <;> ring
  · intro name
    simp only [continuityStep]
    rw [j2, j3, a2, a3, l2, l3, GoMap.get_set, GoMap.get_set]
    simp only [trackedCity, trackedAirplane, lastFlightOf_succ fs k f name h]
    by_cases hn : f.FirstPilot.Name = name
    · simp [hn]
    · have := hm name
      simp only [trackedCity, trackedAirplane] at this
      simp [hn, this]

theorem continuityLoop_spec (fs : List Flight) (ps : List Pilot) :
    ∀ (l pre : List Flight) (s : EvalState), fs = pre ++ l → MapsTrack fs ps s pre.length →
      ((l.enumFrom pre.length).foldl (continuityStep fs) s).conflicts
        = s.conflicts + ((List.range' pre.length l.length).map (continuityTerm fs ps)).sum := by
  intro l
  induction l with
  | nil => intro pre s _ _; simp
  | cons f l ih =>
    intro pre s h hm
    have hf : fs[pre.length]? = some f := by rw [h]; exact getElem?_append_cons_length pre f l
    have h' : fs = (pre ++ [f]) ++ l := by rw [h]; simp
    obtain ⟨c1, c2⟩ := continuityStep_spec fs ps s pre.length f hf hm
    have := ih (pre ++ [f]) (continuityStep fs s (pre.length, f)) h'
      (by simpa using c2)
    simp only [List.length_append, List.length_singleton] at this
    simp only [List.enumFrom_cons, List.foldl_cons, List.length_cons, List.range'_succ,
      List.map_cons, List.sum_cons]
    rw [this, c1, add_assoc]

theorem countLoop_keys (fs : List Flight) :
    ∀ (m : GoMap Int), (GoMap.keys m).Nodup →
      (GoMap.keys (fs.foldl countStep m)).Nodup ∧
      ∀ k, k ∈ GoMap.keys (fs.foldl countStep m)
        ↔ k ∈ GoMap.keys m ∨ k ∈ fs.map fun f => f.FirstPilot.Name := by
  induction fs with
  | nil => intro m h; simp [h]
  | cons f fs ih =>
    intro m h
    have h1 := GoMap.nodup_keys_set m f.FirstPilot.Name
      ((GoMap.get m f.FirstPilot.Name).getD 0 + 1) h
    obtain ⟨i1, i2⟩ := ih (countStep m f) h1
    refine ⟨i1, fun k => ?_⟩
    rw [List.foldl_cons, i2, countStep, GoMap.mem_keys_set]
    simp only [List.map_cons, List.mem_cons]
    tauto

theorem countLoop_length (fs : List Flight) :
    (fs.foldl countStep ([] : GoMap Int)).length = distinctPilots fs := by
  obtain ⟨h1, h2⟩ := countLoop_keys fs [] (by simp [GoMap.keys])
  have e : (fs.foldl countStep ([] : GoMap Int)).length
      = (GoMap.keys (fs.foldl countStep ([] : GoMap Int))).length := by
    simp [GoMap.keys]
  rw [e, distinctPilots, ← List.toFinset_card_of_nodup h1, ← List.card_toFinset]
  congr 1
  ext k
  have := h2 k
  simp only [GoMap.keys, List.map_nil, List.not_mem_nil, false_or] at this
  simpa [GoMap.keys] using this

theorem continuity_sum (fs : List Flight) (ps : List Pilot) (l : List Nat) :
    (l.map (continuityTerm fs ps)).sum
      = 100 * ((l.countP (locationConflict fs ps) : Nat) : Int)
        + (l.map (airplaneTerm fs ps)).sum
        + 250 * ((l.countP (idleJump fs) : Nat) : Int) := by
  induction l with
  | nil => simp
  | cons a l ih =>
    simp only [List.map_cons, List.sum_cons, ih, List.countP_cons, continuityTerm]
    by_cases h1 : locationConflict fs ps a <;> by_cases h2 : idleJump fs a <;>
      simp [h1, h2] <;> ring

theorem evaluate_eq_cost (fs : List Flight) (ps : List Pilot) :
    evaluate fs ps = (hubCount fs : Int) + 100 * (locationCount fs ps : Int) + airplaneSum fs ps
      + 250 * (jumpCount fs : Int) + 100 * (distinctPilots fs : Int) := by
  obtain ⟨s1, s2⟩ := seedLoop_spec ps (fs.enum.foldl (hubStep fs.length) 0)
  have hm : MapsTrack fs ps
      (ps.foldl seedStep ⟨fs.enum.foldl (hubStep fs.length) 0, [], []⟩) ([] : List Flight).length := by
    intro name
    simp only [trackedCity, trackedAirplane, lastFlightOf, List.length_nil, List.take_zero,
      List.reverse_nil, List.find?_nil]
    exact s2 name
  have hc : (fs.enum.foldl (continuityStep fs)
      (ps.foldl seedStep ⟨fs.enum.foldl (hubStep fs.length) 0, [], []⟩)).conflicts
      = _ := continuityLoop_spec fs ps fs [] _ (by simp) hm
  simp only [List.length_nil] at hc
  show (fs.enum.foldl (continuityStep fs)
      (ps.foldl seedStep ⟨fs.enum.foldl (hubStep fs.length) 0, [], []⟩)).conflicts
      + ((fs.foldl countStep ([] : GoMap Int)).length : Int) * 100 = _
  rw [hc, s1, hubLoop_eq, countLoop_length, ← List.range_eq_range', continuity_sum,
    locationCount, airplaneSum, jumpCount]
  ring

/-! ## The move and one iteration of the search -/


theorem split_at_pair (l : List Flight) (i : Nat) (h : i + 1 < l.length) :
    ∃ pre a b post, l = pre ++ a :: b :: post ∧ pre.length = i := by
  refine ⟨l.take i, l[i], l[i + 1], l.drop (i + 2), ?_, ?_⟩
  · have h1 : l.drop i = l[i] :: l.drop (i + 1) := List.drop_eq_getElem_cons (by omega)
    have h2 : l.drop (i + 1) = l[i + 1] :: l.drop (i + 2) := List.drop_eq_getElem_cons h
    rw [← h2, ← h1, List.take_append_drop]
  · rw [List.length_take]; omega

theorem swapPilots_split (pre : List Flight) (a b : Flight) (post : List Flight) :
    swapPilots (pre ++ a :: b :: post) pre.length (pre.length + 1)
      = .ok (swapped pre a b post) := by
  have h1 : (pre ++ a :: b :: post)[pre.length]? = some a := by
    rw [List.getElem?_append_right (le_refl _)]; simp
  have h2 : (pre ++ a :: b :: post)[pre.length + 1]? = some b := by
    rw [List.getElem?_append_right (by omega)]; simp
  have h3 : (pre ++ a :: b :: post).set pre.length { a with FirstPilot := b.FirstPilot }
      = pre ++ { a with FirstPilot := b.FirstPilot } :: b :: post := by
    rw [List.set_append_right _ _ (le_refl _)]; simp
  have h4 : (pre ++ { a with FirstPilot := b.FirstPilot } :: b :: post)[pre.length + 1]?
      = some b := by
    rw [List.getElem?_append_right (by omega)]; simp
  have h5 : (pre ++ { a with FirstPilot := b.FirstPilot } :: b :: post).set (pre.length + 1)
      { b with FirstPilot := a.FirstPilot } = swapped pre a b post := by
    rw [List.set_append_right _ _ (by omega)]; simp [swapped]
  simp only [swapPilots, getFirstPilot, setFirstPilot, h1, h2, h3, h4, h5]

theorem Intn_ok (n : Nat) (g : Rand) (h : 2 ≤ n) :
    Intn ((n : Int) - 1) g = .ok (g 0 % (n - 1), fun k => g (k + 1)) ∧ g 0 % (n - 1) + 1 < n := by
  have h1 : ¬ ((n : Int) - 1 ≤ 0) := by omega
  have h2 : ((n : Int) - 1).toNat = n - 1 := by omega
  refine ⟨by simp only [Intn, h1, if_false, h2], ?_⟩
  have := Nat.mod_lt (g 0) (show 0 < n - 1 by omega)
  omega

theorem makeMove_ok (l : List Flight) (g : Rand) (h : 2 ≤ l.length) :
    ∃ pre a b post, l = pre ++ a :: b :: post ∧ pre.length = g 0 % (l.length - 1) ∧
      makeMove l g = .ok (swapped pre a b post, fun k => g (k + 1)) := by
  obtain ⟨h1, h2⟩ := Intn_ok l.length g h
  obtain ⟨pre, a, b, post, e, hl⟩ := split_at_pair l _ h2
  refine ⟨pre, a, b, post, e, hl, ?_⟩
  simp only [makeMove, h1]
  rw [← hl]
  conv_lhs => rw [e]
  rw [swapPilots_split]

theorem swapped_length (pre : List Flight) (a b : Flight) (post : List Flight) :
    (swapped pre a b post).length = (pre ++ a :: b :: post).length := by
  simp [swapped]

theorem swapped_leg (pre : List Flight) (a b : Flight) (post : List Flight) :
    (swapped pre a b post).map legOf = (pre ++ a :: b :: post).map legOf := by
  simp [swapped, legOf]

theorem swapped_perm (pre : List Flight) (a b : Flight) (post : List Flight) :
    ((swapped pre a b post).map Flight.FirstPilot).Perm
      ((pre ++ a :: b :: post).map Flight.FirstPilot) := by
  simp only [swapped, List.map_append, List.map_cons]
  exact List.Perm.append_left _ (List.Perm.swap _ _ _)

theorem SameLegsPermPilots.refl (flights : List Flight) : SameLegsPermPilots flights flights :=
  ⟨rfl, fun _ => rfl, List.Perm.refl _⟩

theorem SameLegsPermPilots.swapped (flights pre : List Flight) (a b : Flight)
    (post : List Flight) (h : SameLegsPermPilots flights (pre ++ a :: b :: post)) :
    SameLegsPermPilots flights (AirlineCrew.swapped pre a b post) := by
  obtain ⟨h1, h2, h3⟩ := h
  refine ⟨by rw [swapped_length, h1], fun k => ?_, (swapped_perm pre a b post).trans h3⟩
  rw [← h2 k, ← List.getElem?_map, ← List.getElem?_map, swapped_leg]

theorem acceptStep_proj (fmt : Time → String) (pilots : List Pilot) (tabuTenure : Int)
    (s : SearchState) (c : List Flight) :
    (acceptStep fmt pilots tabuTenure s c).bestSolution = s.bestSolution ∧
    (acceptStep fmt pilots tabuTenure s c).iteration = s.iteration ∧
    (acceptStep fmt pilots tabuTenure s c).rng = s.rng ∧
    (acceptStep fmt pilots tabuTenure s c).currentSolution =
      (if candidateCost fmt pilots s.tabuList c < evaluate s.currentSolution pilots
       then c else s.currentSolution) ∧
    (acceptStep fmt pilots tabuTenure s c).tabuList =
      (if candidateCost fmt pilots s.tabuList c < evaluate s.currentSolution pilots
       then c.foldl (commitStep fmt tabuTenure) s.tabuList else s.tabuList) := by
  unfold acceptStep
  split_ifs <;> exact ⟨rfl, rfl, rfl, rfl, rfl⟩

theorem updateBest_proj (pilots : List Pilot) (s : SearchState) :
    (updateBest pilots s).currentSolution = s.currentSolution ∧
    (updateBest pilots s).iteration = s.iteration ∧
    (updateBest pilots s).rng = s.rng ∧
    (updateBest pilots s).tabuList = s.tabuList ∧
    (updateBest pilots s).bestSolution =
      (if evaluate s.currentSolution pilots < evaluate s.bestSolution pilots
       then s.currentSolution else s.bestSolution) := by
  unfold updateBest
  split_ifs <;> exact ⟨rfl, rfl, rfl, rfl, rfl⟩

theorem iterationBody_spec (fmt : Time → String) (pilots : List Pilot) (tabuTenure : Int)
    (s : SearchState) (h : 2 ≤ s.currentSolution.length) :
    ∃ pre a b post s', s.currentSolution = pre ++ a :: b :: post ∧
      pre.length = s.rng 0 % (s.currentSolution.length - 1) ∧
      iterationBody fmt pilots tabuTenure s = .ok s' ∧
      s'.iteration = s.iteration + 1 ∧
      (s'.rng = fun k => s.rng (k + 1)) ∧
      s'.currentSolution =
        (if candidateCost fmt pilots s.tabuList (swapped pre a b post)
            < evaluate s.currentSolution pilots
         then swapped pre a b post else s.currentSolution) ∧
      s'.bestSolution =
        (if evaluate s'.currentSolution pilots < evaluate s.bestSolution pilots
         then s'.currentSolution else s.bestSolution) ∧
      s'.tabuList = decay
        (if candidateCost fmt pilots s.tabuList (swapped pre a b post)
            < evaluate s.currentSolution pilots
         then (swapped pre a b post).foldl (commitStep fmt tabuTenure) s.tabuList
         else s.tabuList) := by
  obtain ⟨pre, a, b, post, e, hl, hm⟩ := makeMove_ok s.currentSolution s.rng h
  obtain ⟨a1, a2, a3, a4, a5⟩ := acceptStep_proj fmt pilots tabuTenure
    { s with iteration := s.iteration + 1, rng := fun k => s.rng (k + 1) } (swapped pre a b post)
  obtain ⟨u1, u2, u3, u4, u5⟩ := updateBest_proj pilots (acceptStep fmt pilots tabuTenure
    { s with iteration := s.iteration + 1, rng := fun k => s.rng (k + 1) } (swapped pre a b post))
  have hb : iterationBody fmt pilots tabuTenure s = .ok
      { updateBest pilots (acceptStep fmt pilots tabuTenure
          { s with iteration := s.iteration + 1, rng := fun k => s.rng (k + 1) }
          (swapped pre a b post)) with
        tabuList := decay (updateBest pilots (acceptStep fmt pilots tabuTenure
          { s with iteration := s.iteration + 1, rng := fun k => s.rng (k + 1) }
          (swapped pre a b post))).tabuList } := by
    simp only [iterationBody, hm]
  refine ⟨pre, a, b, post, _, e, hl, hb, ?_, ?_, ?_, ?_, ?_⟩
  · show (updateBest _ _).iteration = _
    rw [u2, a2]
  · show (updateBest _ _).rng = _
    rw [u3, a3]
  · show (updateBest _ _).currentSolution = _
    rw [u1, a4]
  · show (updateBest _ _).bestSolution = if evaluate (updateBest _ _).currentSolution pilots < _
      then (updateBest _ _).currentSolution else _
    rw [u5, u1, a1]
  · show decay (updateBest _ _).tabuList = _
    rw [u4, a5]

theorem searchLoop_spec (fmt : Time → String) (pilots : List Pilot)
    (maxIterations tabuTenure : Int) :
    ∀ (fuel : Nat) (s : SearchState), (maxIterations - s.iteration).toNat ≤ fuel →
      2 ≤ s.currentSolution.length →
      ∃ tr, searchLoop fmt pilots maxIterations tabuTenure fuel s = .ok tr ∧
        TraceOK fmt pilots maxIterations tabuTenure s tr := by
  intro fuel
  induction fuel with
  | zero =>
    intro s hf _
    have : ¬ s.iteration < maxIterations := by omega
    exact ⟨[], by simp only [searchLoop, this, if_false], this⟩
  | succ fuel ih =>
    intro s hf hl
    by_cases hc : s.iteration < maxIterations
    · obtain ⟨pre, a, b, post, s', e, _, hb, hi, _, hcur, _, _⟩ :=
        iterationBody_spec fmt pilots tabuTenure s hl
      have hl' : 2 ≤ s'.currentSolution.length := by
        rw [hcur]
        split_ifs
        · rw [swapped_length, ← e]; exact hl
        · exact hl
      by_cases h0 : evaluate s'.bestSolution pilots = 0
      · exact ⟨[s'], by simp only [searchLoop, hc, if_true, hb, h0],
          ⟨hc, hb, by simp only [h0, if_true]⟩⟩
      · obtain ⟨tr, h1, h2⟩ := ih s' (by rw [hi]; omega) hl'
        exact ⟨s' :: tr, by simp only [searchLoop, hc, if_true, hb, h0, if_false, h1],
          ⟨hc, hb, by simp only [h0, if_false]; exact h2⟩⟩
    · exact ⟨[], by simp only [searchLoop, hc, if_false], hc⟩

theorem TabuSearchTrace_spec (fmt : Time → String) (flights : List Flight) (pilots : List Pilot)
    (maxIterations tabuTenure : Int) (g : Rand) (h : 2 ≤ flights.length) :
    ∃ tr, TabuSearchTrace fmt flights pilots maxIterations tabuTenure g = .ok tr ∧
      TabuSearch fmt flights pilots maxIterations tabuTenure g
        = .ok (finalState flights g tr).bestSolution ∧
      TraceOK fmt pilots maxIterations tabuTenure (initialState flights g) tr := by
  obtain ⟨tr, h1, h2⟩ := searchLoop_spec fmt pilots maxIterations tabuTenure
    maxIterations.toNat (initialState flights g) (by simp [initialState]) h
  exact ⟨tr, h1, by simp only [TabuSearch, TabuSearchTrace, h1], h2⟩

/-! ## Runs of the search loop -/


theorem iterationBody_iteration (fmt : Time → String) (pilots : List Pilot) (tabuTenure : Int)
    (s s' : SearchState) (h : iterationBody fmt pilots tabuTenure s = .ok s') :
    s'.iteration = s.iteration + 1 := by
  unfold iterationBody at h
  split at h
  · exact absurd h (by simp)
  · rename_i c g _
    simp only [Except.ok.injEq] at h
    rw [← h]
    show (updateBest _ _).iteration = _
    rw [(updateBest_proj _ _).2.1, (acceptStep_proj _ _ _ _ _).2.1]

theorem iterationBody_error (fmt : Time → String) (pilots : List Pilot) (tabuTenure : Int)
    (s : SearchState) (h : s.currentSolution.length < 2) :
    iterationBody fmt pilots tabuTenure s = .error .invalidArgumentToIntn := by
  have h1 : (s.currentSolution.length : Int) - 1 ≤ 0 := by omega
  simp only [iterationBody, makeMove, Intn, h1, if_true]

theorem TraceOK.invariant (fmt : Time → String) (pilots : List Pilot)
    (maxIterations tabuTenure : Int) (P : SearchState → Prop)
    (R : SearchState → SearchState → Prop)
    (hstep : ∀ s s', P s → iterationBody fmt pilots tabuTenure s = .ok s' → P s' ∧ R s s') :
    ∀ (tr : List SearchState) (s : SearchState),
      TraceOK fmt pilots maxIterations tabuTenure s tr → P s →
        (∀ x ∈ tr, P x) ∧ List.Chain R s tr := by
  intro tr
  induction tr with
  | nil => intro s _ _; exact ⟨by simp, List.Chain.nil⟩
  | cons s' tr ih =>
    intro s h hp
    obtain ⟨_, hb, hrest⟩ := h
    obtain ⟨hp', hr⟩ := hstep s s' hp hb
    by_cases h0 : evaluate s'.bestSolution pilots = 0
    · simp only [h0, if_true] at hrest
      subst hrest
      exact ⟨by simpa using hp', List.Chain.cons hr List.Chain.nil⟩
    · simp only [h0, if_false] at hrest
      obtain ⟨i1, i2⟩ := ih s' hrest hp'
      refine ⟨?_, List.Chain.cons hr i2⟩
      intro x hx
      rcases List.mem_cons.1 hx with rfl | hx
      · exact hp'
      · exact i1 x hx

theorem finalState_cases (flights : List Flight) (g : Rand) (tr : List SearchState) :
    (tr = [] ∧ finalState flights g tr = initialState flights g) ∨
      (finalState flights g tr ∈ tr ∧ tr.getLast? = some (finalState flights g tr)) := by
  unfold finalState
  cases h : tr.getLast? with
  | none => left; exact ⟨List.getLast?_eq_none_iff.1 h, rfl⟩
  | some x => right; exact ⟨List.mem_of_getLast?_eq_some h, rfl⟩

theorem TraceOK.length_le (fmt : Time → String) (pilots : List Pilot)
    (maxIterations tabuTenure : Int) :
    ∀ (tr : List SearchState) (s : SearchState),
      TraceOK fmt pilots maxIterations tabuTenure s tr → tr ≠ [] →
        s.iteration + (tr.length : Int) ≤ maxIterations ∧
        ∀ x, tr.getLast? = some x → x.iteration = s.iteration + (tr.length : Int) := by
  intro tr
  induction tr with
  | nil => intro s _ h; exact absurd rfl h
  | cons s' tr ih =>
    intro s h _
    obtain ⟨hc, hb, hrest⟩ := h
    have hi := iterationBody_iteration fmt pilots tabuTenure s s' hb
    by_cases ht : tr = []
    · subst ht
      refine ⟨by simp only [List.length_singleton]; omega, fun x hx => ?_⟩
      simp only [List.getLast?_singleton, Option.some.injEq] at hx
      subst hx
      simp only [List.length_singleton]; omega
    · have h0 : ¬ evaluate s'.bestSolution pilots = 0 := by
        intro h0
        simp only [h0, if_true] at hrest
        exact ht hrest
      simp only [h0, if_false] at hrest
      obtain ⟨i1, i2⟩ := ih s' hrest ht
      refine ⟨by simp only [List.length_cons]; push_cast; omega, fun x hx => ?_⟩
      obtain ⟨y, tr', e⟩ := List.exists_cons_of_ne_nil ht
      rw [e, List.getLast?_cons_cons, ← e] at hx
      have := i2 x hx
      simp only [List.length_cons]; push_cast; omega

theorem TraceOK.next_iff (fmt : Time → String) (pilots : List Pilot)
    (maxIterations tabuTenure : Int) :
    ∀ (tr : List SearchState) (s : SearchState) (j : Nat),
      TraceOK fmt pilots maxIterations tabuTenure s tr → j < tr.length →
        ∃ sj, tr[j]? = some sj ∧ sj.iteration = s.iteration + (j : Int) + 1 ∧
          (sj.iteration < maxIterations →
            (j + 1 < tr.length ↔ evaluate sj.bestSolution pilots ≠ 0)) := by
  intro tr
  induction tr with
  | nil => intro s j _ hj; exact absurd hj (by simp)
  | cons s' tr ih =>
    intro s j h hj
    obtain ⟨hc, hb, hrest⟩ := h
    have hi := iterationBody_iteration fmt pilots tabuTenure s s' hb
    by_cases h0 : evaluate s'.bestSolution pilots = 0
    · simp only [h0, if_true] at hrest
      subst hrest
      have hj0 : j = 0 := by simpa using hj
      subst hj0
      exact ⟨s', by simp, by simp [hi], fun _ => by simp [h0]⟩
    · simp only [h0, if_false] at hrest
      cases j with
      | zero =>
        refine ⟨s', by simp, by simp [hi], fun hlt => ?_⟩
        have hne : tr ≠ [] := by
          intro e
          subst e
          exact hrest hlt
        have : 0 < tr.length := List.length_pos.2 hne
        simp only [List.length_cons, ne_eq, h0, not_false_eq_true, iff_true]
        omega
      | succ j =>
        obtain ⟨sj, e1, e2, e3⟩ := ih s' j hrest (by simpa using hj)
        refine ⟨sj, by simpa using e1, by rw [e2, hi]; push_cast; ring, fun hlt => ?_⟩
        rw [← e3 hlt]
        simp only [List.length_cons]
        omega

/-! ## Invariants of a run -/


theorem iterationBody_preserves (fmt : Time → String) (flights : List Flight)
    (pilots : List Pilot) (tabuTenure : Int) (hn : 2 ≤ flights.length) (s s' : SearchState)
    (hP : SameLegsPermPilots flights s.currentSolution ∧
      SameLegsPermPilots flights s.bestSolution)
    (hb : iterationBody fmt pilots tabuTenure s = .ok s') :
    (SameLegsPermPilots flights s'.currentSolution ∧
      SameLegsPermPilots flights s'.bestSolution) ∧
    evaluate s'.bestSolution pilots ≤ evaluate s.bestSolution pilots := by
  have hl : 2 ≤ s.currentSolution.length := by rw [hP.1.1]; exact hn
  obtain ⟨pre, a, b, post, s'', e, _, hb', _, _, hcur, hbest, _⟩ :=
    iterationBody_spec fmt pilots tabuTenure s hl
  have hs : s'' = s' := by
    rw [hb'] at hb
    exact Except.ok.inj hb
  subst hs
  have hc : SameLegsPermPilots flights s''.currentSolution := by
    rw [hcur]
    split_ifs
    · exact SameLegsPermPilots.swapped flights pre a b post (e ▸ hP.1)
    · exact hP.1
  refine ⟨⟨hc, ?_⟩, ?_⟩
  · rw [hbest]
    split_ifs
    · exact hc
    · exact hP.2
  · rw [hbest]
    split_ifs with h
    · exact le_of_lt h
    · exact le_refl _

theorem TabuSearch_run (fmt : Time → String) (flights : List Flight) (pilots : List Pilot)
    (maxIterations tabuTenure : Int) (g : Rand) (h : 2 ≤ flights.length) :
    ∃ tr, TabuSearchTrace fmt flights pilots maxIterations tabuTenure g = .ok tr ∧
      TabuSearch fmt flights pilots maxIterations tabuTenure g
        = .ok (finalState flights g tr).bestSolution ∧
      TraceOK fmt pilots maxIterations tabuTenure (initialState flights g) tr ∧
      (∀ x ∈ tr, SearchInv flights pilots x) ∧
      List.Chain (fun a b => evaluate b.bestSolution pilots ≤ evaluate a.bestSolution pilots)
        (initialState flights g) tr ∧
      SearchInv flights pilots (finalState flights g tr) := by
  obtain ⟨tr, h1, h2, h3⟩ := TabuSearchTrace_spec fmt flights pilots maxIterations tabuTenure g h
  have h0 : SearchInv flights pilots (initialState flights g) :=
    ⟨⟨SameLegsPermPilots.refl flights, SameLegsPermPilots.refl flights⟩, le_refl _⟩
  obtain ⟨i1, i2⟩ := TraceOK.invariant fmt pilots maxIterations tabuTenure
    (SearchInv flights pilots)
    (fun a b => evaluate b.bestSolution pilots ≤ evaluate a.bestSolution pilots)
    (fun s s' hp hb => by
      obtain ⟨p1, p2⟩ := iterationBody_preserves fmt flights pilots tabuTenure h s s' hp.1 hb
      exact ⟨⟨p1, le_trans p2 hp.2⟩, p2⟩)
    tr (initialState flights g) h3 h0
  refine ⟨tr, h1, h2, h3, i1, i2, ?_⟩
  rcases finalState_cases flights g tr with ⟨_, e⟩ | ⟨hm, _⟩
  · rw [e]; exact h0
  · exact i1 _ hm

theorem getElem?_pair {α : Type} (pre : List α) (x y : α) (post : List α) (k : Nat) :
    (pre ++ x :: y :: post)[k]? =
      if k < pre.length then pre[k]?
      else if k = pre.length then some x
      else if k = pre.length + 1 then some y
      else post[k - pre.length - 2]? := by
  by_cases h1 : k < pre.length
  · simp only [h1, if_true, List.getElem?_append_left h1]
  · rw [List.getElem?_append_right (by omega)]
    simp only [h1, if_false]
    by_cases h2 : k = pre.length
    · subst h2; simp
    · by_cases h3 : k = pre.length + 1
      · subst h3; simp
      · simp only [h2, h3, if_false]
        obtain ⟨m, hm⟩ : ∃ m, k - pre.length = m + 2 := ⟨k - pre.length - 2, by omega⟩
        rw [hm]
        simp only [List.getElem?_cons_succ]
        congr 1

theorem tabuPenaltyLoop_eq (fmt : Time → String) (tabuList : GoMap Int) (l : List Flight)
    (c : Int) :
    l.foldl (tabuPenaltyStep fmt tabuList) c
      = c + 1000 * ((l.countP fun f => isTabu tabuList (generateTabuKey fmt f) : Nat) : Int) := by
  induction l generalizing c with
  | nil => simp
  | cons f l ih =>
    rw [List.foldl_cons, ih, List.countP_cons]
    unfold tabuPenaltyStep isTabu
    cases GoMap.get tabuList (generateTabuKey fmt f) with
    | none => simp
    | some t =>
      by_cases ht : t > 0
      · have : 0 < t := ht
        simp only [ht, if_true, this, decide_True]
        push_cast
        ring
      · have : ¬ 0 < t := ht
        simp [ht, this]

theorem commitLoop_get (fmt : Time → String) (tabuTenure : Int) (l : List Flight)
    (m : GoMap Int) (k : String) :
    GoMap.get (l.foldl (commitStep fmt tabuTenure) m) k
      = if ∃ f ∈ l, generateTabuKey fmt f = k then some tabuTenure else GoMap.get m k := by
  induction l generalizing m with
  | nil => simp
  | cons f l ih =>
    rw [List.foldl_cons, ih, commitStep, GoMap.get_set]
    by_cases h1 : ∃ f' ∈ l, generateTabuKey fmt f' = k
    · have : ∃ f' ∈ f :: l, generateTabuKey fmt f' = k := by
        obtain ⟨f', hf, e⟩ := h1
        exact ⟨f', List.mem_cons_of_mem _ hf, e⟩
      simp only [h1, this, if_true]
    · by_cases h2 : generateTabuKey fmt f = k
      · have : ∃ f' ∈ f :: l, generateTabuKey fmt f' = k := ⟨f, List.mem_cons_self _ _, h2⟩
        simp only [h1, h2, this, if_true, if_false]
      · have : ¬ ∃ f' ∈ f :: l, generateTabuKey fmt f' = k := by
          rintro ⟨f', hf, e⟩
          rcases List.mem_cons.1 hf with rfl | hf
          · exact h2 e
          · exact h1 ⟨f', hf, e⟩
        simp only [h1, h2, this, if_false]

theorem searchLoop_no_iteration (fmt : Time → String) (pilots : List Pilot)
    (maxIterations tabuTenure : Int) (fuel : Nat) (s : SearchState)
    (h : ¬ s.iteration < maxIterations) :
    searchLoop fmt pilots maxIterations tabuTenure fuel s = .ok [] := by
  cases fuel <;> simp only [searchLoop, h, if_false]

/-! ## Two concrete runs -/

/-- Ten shuttle legs cost exactly `0`: the search stops after its first iteration although
the budget is `5`, and returns the input. -/
theorem TabuSearch_stops_at_zero_cost_example :
    evaluate (shuttleFlights 10) [pilotC] = 0 ∧
    (TabuSearchTrace exFmt (shuttleFlights 10) [pilotC] 5 2 exRand).map List.length = .ok 1 ∧
    TabuSearch exFmt (shuttleFlights 10) [pilotC] 5 2 exRand = .ok (shuttleFlights 10) := by
  decide

/-- Eleven shuttle legs cost `-10`: a negative best cost does not stop the search, all `5`
iterations of the budget are executed. -/
theorem TabuSearch_runs_on_negative_cost_example :
    evaluate (shuttleFlights 11) [pilotC] = -10 ∧
    (TabuSearchTrace exFmt (shuttleFlights 11) [pilotC] 5 2 exRand).map List.length = .ok 5 := by
  decide

/-! ## The tabu list along a run -/

theorem decay_get (m : GoMap Int) (k : String) :
    GoMap.get (decay m) k = (GoMap.get m k).map decayed := by
  induction m with
  | nil => rfl
  | cons e m ih =>
    obtain ⟨a, t⟩ := e
    have hd : decay ((a, t) :: m) = (a, decayed t) :: decay m := by
      simp only [decay, List.map_cons, decayed]
      split_ifs <;> rfl
    rw [hd]
    simp only [GoMap.get]
    split_ifs
    · rfl
    · exact ih

theorem decayed_nonneg (t : Int) (h : 0 ≤ t) : 0 ≤ decayed t := by
  unfold decayed
  split_ifs <;> omega

theorem decay_iterate_get (m : GoMap Int) (k : String) (n : Nat) :
    GoMap.get (decay^[n] m) k = (GoMap.get m k).map (decayed^[n]) := by
  induction n generalizing m with
  | zero => simp
  | succ n ih =>
    rw [Function.iterate_succ_apply, ih, decay_get, Function.iterate_succ]
    cases GoMap.get m k <;> rfl

theorem decayed_iterate (t : Int) (n : Nat) (h : 0 ≤ t) :
    decayed^[n] t = if (n : Int) ≤ t then t - n else 0 := by
  induction n generalizing t with
  | zero => simp [h]
  | succ n ih =>
    rw [Function.iterate_succ_apply, ih _ (decayed_nonneg t h)]
    unfold decayed
    push_cast
    split_ifs <;> omega

theorem iterationBody_tenure (fmt : Time → String) (pilots : List Pilot) (tabuTenure : Int)
    (s s' : SearchState) (hl : 2 ≤ s.currentSolution.length)
    (hb : iterationBody fmt pilots tabuTenure s = .ok s') :
    TenureStep fmt pilots tabuTenure s s' := by
  obtain ⟨pre, a, b, post, e, hpl, hm⟩ := makeMove_ok s.currentSolution s.rng hl
  obtain ⟨pre', a', b', post', s'', e', hl', hb', _, _, hcur, _, htabu⟩ :=
    iterationBody_spec fmt pilots tabuTenure s hl
  have hs : s'' = s' := by
    rw [hb'] at hb
    exact Except.ok.inj hb
  subst hs
  have hsame : swapped pre' a' b' post' = swapped pre a b post := by
    have h1 : pre'.length = pre.length := by rw [hpl, hl']
    have h2 := e.symm.trans e'
    obtain ⟨p1, p2⟩ := List.append_inj h2 h1.symm
    simp only [List.cons.injEq] at p2
    obtain ⟨q1, q2, q3⟩ := p2
    rw [p1, q1, q2, q3]
  rw [hsame] at hcur htabu
  obtain ⟨_, _, _, a4, a5⟩ := acceptStep_proj fmt pilots tabuTenure s (swapped pre a b post)
  refine ⟨swapped pre a b post, _, hm, fun k => ⟨?_, ?_⟩⟩
  · rw [htabu, decay_get, a5]
  · by_cases hacc : candidateCost fmt pilots s.tabuList (swapped pre a b post)
        < evaluate s.currentSolution pilots
    · rw [a5, if_pos hacc, commitLoop_get, hcur, if_pos hacc]
      by_cases hk : ∃ f ∈ swapped pre a b post, generateTabuKey fmt f = k
      · right
        exact ⟨hacc, rfl, hk, by rw [if_pos hk]⟩
      · left
        rw [if_neg hk]
    · left
      rw [a5, if_neg hacc]

theorem TenureStep.nonneg (fmt : Time → String) (pilots : List Pilot) (tabuTenure : Int)
    (s s' : SearchState) (hT : 0 ≤ tabuTenure) (hs : TenureStep fmt pilots tabuTenure s s')
    (h : ∀ k t, GoMap.get s.tabuList k = some t → 0 ≤ t) :
    ∀ k t, GoMap.get s'.tabuList k = some t → 0 ≤ t := by
  obtain ⟨cand, g', _, hk⟩ := hs
  intro k t ht
  obtain ⟨h1, h2⟩ := hk k
  rw [h1] at ht
  cases ha : GoMap.get (acceptStep fmt pilots tabuTenure s cand).tabuList k with
  | none => rw [ha] at ht; exact absurd ht (by simp)
  | some u =>
    rw [ha] at ht
    simp only [Option.map_some', Option.some.injEq] at ht
    rw [← ht]
    apply decayed_nonneg
    rcases h2 with h2 | ⟨_, _, _, h2⟩
    · exact h k u (by rw [← h2, ha])
    · rw [ha] at h2
      simp only [Option.some.injEq] at h2
      omega

theorem iterationBody_cases (fmt : Time → String) (pilots : List Pilot) (tabuTenure : Int)
    (s s' : SearchState) (hl : 2 ≤ s.currentSolution.length)
    (hb : iterationBody fmt pilots tabuTenure s = .ok s') :
    ∃ pre a b post g', s.currentSolution = pre ++ a :: b :: post ∧
      makeMove s.currentSolution s.rng = .ok (swapped pre a b post, g') ∧
      s'.iteration = s.iteration + 1 ∧ s'.rng = g' ∧
      s'.currentSolution =
        (if candidateCost fmt pilots s.tabuList (swapped pre a b post)
            < evaluate s.currentSolution pilots
         then swapped pre a b post else s.currentSolution) ∧
      s'.bestSolution =
        (if evaluate s'.currentSolution pilots < evaluate s.bestSolution pilots
         then s'.currentSolution else s.bestSolution) ∧
      s'.tabuList = decay
        (if candidateCost fmt pilots s.tabuList (swapped pre a b post)
            < evaluate s.currentSolution pilots
         then (swapped pre a b post).foldl (commitStep fmt tabuTenure) s.tabuList
         else s.tabuList) := by
  obtain ⟨pre, a, b, post, e, _, hm⟩ := makeMove_ok s.currentSolution s.rng hl
  obtain ⟨_, a2, a3, a4, a5⟩ := acceptStep_proj fmt pilots tabuTenure
    { s with iteration := s.iteration + 1, rng := fun k => s.rng (k + 1) } (swapped pre a b post)
  obtain ⟨u1, u2, u3, u4, u5⟩ := updateBest_proj pilots (acceptStep fmt pilots tabuTenure
    { s with iteration := s.iteration + 1, rng := fun k => s.rng (k + 1) } (swapped pre a b post))
  obtain ⟨a1, _⟩ := acceptStep_proj fmt pilots tabuTenure
    { s with iteration := s.iteration + 1, rng := fun k => s.rng (k + 1) } (swapped pre a b post)
  simp only [iterationBody, hm, Except.ok.injEq] at hb
  subst hb
  refine ⟨pre, a, b, post, _, e, hm, ?_, ?_, ?_, ?_, ?_⟩
  · show (updateBest _ _).iteration = _
    rw [u2, a2]
  · show (updateBest _ _).rng = _
    rw [u3, a3]
  · show (updateBest _ _).currentSolution = _
    rw [u1, a4]
  · show (updateBest _ _).bestSolution = if evaluate (updateBest _ _).currentSolution pilots < _
      then (updateBest _ _).currentSolution else _
    rw [u5, u1, a1]
  · show decay (updateBest _ _).tabuList = _
    rw [u4, a5]

theorem candidateCost_ge (fmt : Time → String) (pilots : List Pilot) (tabuList : GoMap Int)
    (c : List Flight) : evaluate c pilots ≤ candidateCost fmt pilots tabuList c := by
  unfold candidateCost
  rw [tabuPenaltyLoop_eq]
  have : (0 : Int) ≤ ((c.countP fun f => isTabu tabuList (generateTabuKey fmt f) : Nat) : Int) :=
    Int.natCast_nonneg _
  omega

theorem TabuSearch_run_with (fmt : Time → String) (flights : List Flight)
    (pilots : List Pilot) (maxIterations tabuTenure : Int) (g : Rand) (h : 2 ≤ flights.length)
    (P : SearchState → Prop) (R : SearchState → SearchState → Prop)
    (h0 : P (initialState flights g))
    (hstep : ∀ s s', 2 ≤ s.currentSolution.length → P s →
      iterationBody fmt pilots tabuTenure s = .ok s' → P s' ∧ R s s') :
    ∃ tr, TabuSearchTrace fmt flights pilots maxIterations tabuTenure g = .ok tr ∧
      TabuSearch fmt flights pilots maxIterations tabuTenure g
        = .ok (finalState flights g tr).bestSolution ∧
      TraceOK fmt pilots maxIterations tabuTenure (initialState flights g) tr ∧
      (∀ x ∈ tr, P x ∧ SearchInv flights pilots x) ∧
      List.Chain R (initialState flights g) tr ∧
      P (finalState flights g tr) ∧ SearchInv flights pilots (finalState flights g tr) := by
  obtain ⟨tr, h1, h2, h3⟩ := TabuSearchTrace_spec fmt flights pilots maxIterations tabuTenure g h
  have hi : SearchInv flights pilots (initialState flights g) :=
    ⟨⟨SameLegsPermPilots.refl flights, SameLegsPermPilots.refl flights⟩, le_refl _⟩
  obtain ⟨i1, i2⟩ := TraceOK.invariant fmt pilots maxIterations tabuTenure
    (fun s => P s ∧ SearchInv flights pilots s) R
    (fun s s' hp hb => by
      have hl : 2 ≤ s.currentSolution.length := by rw [hp.2.1.1.1]; exact h
      obtain ⟨p1, p2⟩ := iterationBody_preserves fmt flights pilots tabuTenure h s s' hp.2.1 hb
      obtain ⟨q1, q2⟩ := hstep s s' hl hp.1 hb
      exact ⟨⟨q1, p1, le_trans p2 hp.2.2⟩, q2⟩)
    tr (initialState flights g) h3 ⟨h0, hi⟩
  refine ⟨tr, h1, h2, h3, i1, i2, ?_⟩
  rcases finalState_cases flights g tr with ⟨_, e⟩ | ⟨hm, _⟩
  · rw [e]; exact ⟨h0, hi⟩
  · exact i1 _ hm

theorem iterationBody_descent (fmt : Time → String) (pilots : List Pilot) (tabuTenure : Int)
    (s s' : SearchState) (hl : 2 ≤ s.currentSolution.length)
    (hP : s.bestSolution = s.currentSolution)
    (hb : iterationBody fmt pilots tabuTenure s = .ok s') :
    s'.bestSolution = s'.currentSolution ∧ DescentStep fmt pilots s s' := by
  obtain ⟨pre, a, b, post, g', _, hm, _, _, hcur, hbest, _⟩ :=
    iterationBody_cases fmt pilots tabuTenure s s' hl hb
  have hge := candidateCost_ge fmt pilots s.tabuList (swapped pre a b post)
  by_cases hacc : candidateCost fmt pilots s.tabuList (swapped pre a b post)
      < evaluate s.currentSolution pilots
  · rw [if_pos hacc] at hcur
    have hlt : evaluate (swapped pre a b post) pilots < evaluate s.currentSolution pilots :=
      lt_of_le_of_lt hge hacc
    refine ⟨?_, _, _, hm, fun _ => ⟨hcur, hlt⟩, fun hn => absurd hacc hn⟩
    rw [hbest, hcur, hP, if_pos hlt]
  · rw [if_neg hacc] at hcur
    refine ⟨?_, _, _, hm, fun hy => absurd hy hacc, fun _ => hcur⟩
    rw [hbest, hcur, hP, if_neg (lt_irrefl _)]

/-! ## Bounds on the cost -/

theorem rosterEntry_insert (ps1 ps2 : List Pilot) (p : Pilot) (name : String)
    (h : p.Name ≠ name) :
    rosterEntry (ps1 ++ p :: ps2) name = rosterEntry (ps1 ++ ps2) name := by
  simp [rosterEntry, List.find?_append, List.find?_cons, h]

theorem mem_of_getElem?_eq_some {α : Type} (l : List α) (i : Nat) (x : α)
    (h : l[i]? = some x) : x ∈ l := by
  obtain ⟨hi, e⟩ := List.getElem?_eq_some.1 h
  rw [← e]
  exact List.getElem_mem _

theorem locationConflict_insert (fs : List Flight) (ps1 ps2 : List Pilot) (p : Pilot)
    (h : ∀ f ∈ fs, f.FirstPilot.Name ≠ p.Name) :
    locationConflict fs (ps1 ++ p :: ps2) = locationConflict fs (ps1 ++ ps2) := by
  funext i
  unfold locationConflict
  cases hf : fs[i]? with
  | none => rfl
  | some f =>
    have hn := h f (mem_of_getElem?_eq_some fs i f hf)
    simp only [trackedCity, rosterEntry_insert ps1 ps2 p _ (Ne.symm hn)]

theorem airplaneTerm_insert (fs : List Flight) (ps1 ps2 : List Pilot) (p : Pilot)
    (h : ∀ f ∈ fs, f.FirstPilot.Name ≠ p.Name) :
    airplaneTerm fs (ps1 ++ p :: ps2) = airplaneTerm fs (ps1 ++ ps2) := by
  funext i
  unfold airplaneTerm
  cases hf : fs[i]? with
  | none => rfl
  | some f =>
    have hn := h f (mem_of_getElem?_eq_some fs i f hf)
    simp only [trackedAirplane, rosterEntry_insert ps1 ps2 p _ (Ne.symm hn)]

theorem evaluate_insert (fs : List Flight) (ps1 ps2 : List Pilot) (p : Pilot)
    (h : ∀ f ∈ fs, f.FirstPilot.Name ≠ p.Name) :
    evaluate fs (ps1 ++ p :: ps2) = evaluate fs (ps1 ++ ps2) := by
  rw [evaluate_eq_cost, evaluate_eq_cost, locationCount, locationCount, airplaneSum, airplaneSum,
    locationConflict_insert fs ps1 ps2 p h, airplaneTerm_insert fs ps1 ps2 p h]

theorem countP_range'_le (p : Nat → Bool) (a m : Nat) : (List.range' a m).countP p ≤ m := by
  have := List.countP_le_length p (l := List.range' a m)
  simpa using this

theorem hubCount_le (fs : List Flight) (h : 2 ≤ fs.length) : hubCount fs + 2 ≤ fs.length := by
  obtain ⟨m, hm⟩ : ∃ m, fs.length = m + 1 + 1 := ⟨fs.length - 2, by omega⟩
  have hr : List.range fs.length = 0 :: (List.range' 1 m ++ [1 + m]) := by
    rw [List.range_eq_range', hm, List.range'_succ, List.range'_concat]
    simp
  have h0 : hubViolation fs 0 = false := by
    unfold hubViolation
    cases fs[0]? <;> simp
  have h1 : hubViolation fs (1 + m) = false := by
    unfold hubViolation
    cases fs[1 + m]? with
    | none => rfl
    | some f =>
      have : ¬ ((1 : Int) + (m : Int) < (fs.length : Int) - 1) := by omega
      simp [this]
  have h2 := countP_range'_le (hubViolation fs) 1 m
  rw [hubCount, hr]
  simp only [List.countP_append, List.countP_cons, List.countP_nil, h0, h1]
  simp only [Bool.false_eq_true, if_false]
  omega

theorem jumpCount_le (fs : List Flight) (h : 1 ≤ fs.length) : jumpCount fs + 1 ≤ fs.length := by
  obtain ⟨m, hm⟩ : ∃ m, fs.length = m + 1 := ⟨fs.length - 1, by omega⟩
  have hr : List.range fs.length = 0 :: List.range' 1 m := by
    rw [List.range_eq_range', hm, List.range'_succ]
  have h0 : idleJump fs 0 = false := by simp [idleJump]
  have h2 := countP_range'_le (idleJump fs) 1 m
  rw [jumpCount, hr]
  simp only [List.countP_cons, h0]
  simp only [Bool.false_eq_true, if_false]
  omega

theorem airplaneTerm_bounds (fs : List Flight) (ps : List Pilot) (i : Nat) :
    -10 ≤ airplaneTerm fs ps i ∧ airplaneTerm fs ps i ≤ 50 := by
  unfold airplaneTerm
  split
  · split
    · split_ifs <;> omega
    · omega
  · omega

theorem sum_map_bounds (g : Nat → Int) (a b : Int) (l : List Nat)
    (h : ∀ i, a ≤ g i ∧ g i ≤ b) :
    a * l.length ≤ (l.map g).sum ∧ (l.map g).sum ≤ b * l.length := by
  induction l with
  | nil => simp
  | cons x l ih =>
    obtain ⟨h1, h2⟩ := h x
    simp only [List.map_cons, List.sum_cons, List.length_cons]
    push_cast
    constructor <;> nlinarith [ih.1, ih.2]

theorem distinctPilots_bounds (fs : List Flight) :
    distinctPilots fs ≤ fs.length ∧ (1 ≤ fs.length → 1 ≤ distinctPilots fs) := by
  constructor
  · have := (List.dedup_sublist (fs.map fun f => f.FirstPilot.Name)).length_le
    simpa [distinctPilots] using this
  · intro h
    unfold distinctPilots
    apply List.length_pos.2
    intro e
    rw [List.dedup_eq_nil] at e
    have : fs = [] := by simpa using e
    rw [this] at h
    simp at h

theorem evaluate_lower (fs : List Flight) (ps : List Pilot) :
    100 * (distinctPilots fs : Int) - 10 * (fs.length : Int) ≤ evaluate fs ps := by
  rw [evaluate_eq_cost]
  have h1 := (sum_map_bounds (airplaneTerm fs ps) (-10) 50 (List.range fs.length)
    (airplaneTerm_bounds fs ps)).1
  rw [List.length_range] at h1
  have h2 : (0 : Int) ≤ (hubCount fs : Int) := Int.natCast_nonneg _
  have h3 : (0 : Int) ≤ (locationCount fs ps : Int) := Int.natCast_nonneg _
  have h4 : (0 : Int) ≤ (jumpCount fs : Int) := Int.natCast_nonneg _
  rw [airplaneSum]
  omega

theorem evaluate_upper (fs : List Flight) (ps : List Pilot) (h : 2 ≤ fs.length) :
    evaluate fs ps ≤ 501 * (fs.length : Int) - 252 := by
  rw [evaluate_eq_cost]
  have h1 := (sum_map_bounds (airplaneTerm fs ps) (-10) 50 (List.range fs.length)
    (airplaneTerm_bounds fs ps)).2
  rw [List.length_range] at h1
  have h2 := hubCount_le fs h
  have h3 : locationCount fs ps ≤ fs.length := by
    have := List.countP_le_length (locationConflict fs ps) (l := List.range fs.length)
    simpa [locationCount] using this
  have h4 := jumpCount_le fs (by omega)
  have h5 := (distinctPilots_bounds fs).1
  rw [airplaneSum]
  omega

theorem evaluate_pos (fs : List Flight) (ps : List Pilot) (h1 : 1 ≤ fs.length)
    (h2 : fs.length < 10) : 0 < evaluate fs ps := by
  have := evaluate_lower fs ps
  have := (distinctPilots_bounds fs).2 h1
  omega

theorem TraceOK.full_length (fmt : Time → String) (pilots : List Pilot)
    (maxIterations tabuTenure : Int) :
    ∀ (tr : List SearchState) (s : SearchState),
      TraceOK fmt pilots maxIterations tabuTenure s tr →
      (∀ x ∈ tr, evaluate x.bestSolution pilots ≠ 0) →
        s.iteration + (tr.length : Int) = max s.iteration maxIterations := by
  intro tr
  induction tr with
  | nil =>
    intro s h _
    have : ¬ s.iteration < maxIterations := h
    simp only [List.length_nil, Nat.cast_zero, add_zero]
    omega
  | cons s' tr ih =>
    intro s h hx
    obtain ⟨hc, hb, hrest⟩ := h
    have hi := iterationBody_iteration fmt pilots tabuTenure s s' hb
    have h0 : ¬ evaluate s'.bestSolution pilots = 0 := hx s' (List.mem_cons_self _ _)
    simp only [h0, if_false] at hrest
    have := ih s' hrest (fun x hm => hx x (List.mem_cons_of_mem _ hm))
    simp only [List.length_cons]
    push_cast
    omega

theorem hubLoop_short (fs : List Flight) (h : fs.length ≤ 2) :
    fs.enum.foldl (hubStep fs.length) 0 = 0 := by
  rw [hubLoop_eq]
  by_cases h2 : 2 ≤ fs.length
  · have := hubCount_le fs h2
    have : hubCount fs = 0 := by omega
    rw [this]; rfl
  · have h3 : hubCount fs ≤ fs.length := by
      have := List.countP_le_length (hubViolation fs) (l := List.range fs.length)
      simpa [hubCount] using this
    match fs, h2, h3 with
    | [], _, h3 =>
      have : hubCount [] = 0 := by simpa using h3
      rw [this]; rfl
    | [f], _, _ =>
      have : hubCount [f] = 0 := by
        simp [hubCount, hubViolation, List.range_succ]
      rw [this]; rfl
    | _ :: _ :: _, h2, _ => exact absurd (by simp) h2

theorem evaluate_single (f : Flight) (ps : List Pilot) :
    evaluate [f] ps = 100 +
      (match rosterEntry ps f.FirstPilot.Name with
        | some p => (if p.CurrentCity ≠ f.FromCity then 100 else 0)
            + (if p.CurrentAirplane = f.Airplane then -10 else 50)
        | none => 0) := by
  have hd : distinctPilots [f] = 1 := by simp [distinctPilots]
  have hh : hubCount [f] = 0 := by simp [hubCount, hubViolation, List.range_succ]
  have hj : jumpCount [f] = 0 := by simp [jumpCount, idleJump, List.range_succ]
  rw [evaluate_eq_cost, hd, hh, hj]
  simp only [locationCount, airplaneSum, List.length_singleton, List.range_succ, List.range_zero,
    List.nil_append, List.countP_cons, List.countP_nil, List.map_cons, List.map_nil,
    List.sum_cons, List.sum_nil, locationConflict, airplaneTerm, trackedCity, trackedAirplane,
    lastFlightOf, List.take_zero, List.reverse_nil, List.find?_nil, List.getElem?_cons_zero]
  cases rosterEntry ps f.FirstPilot.Name with
  | none => simp
  | some p =>
    by_cases h1 : p.CurrentCity = f.FromCity <;> by_cases h2 : p.CurrentAirplane = f.Airplane <;>
      simp [h1, h2]

/-! ## The freeze after an accepted move and the search without tabu memory -/

theorem chain_getElem? {α : Type} (R : α → α → Prop) :
    ∀ (l : List α) (a : α), List.Chain R a l → ∀ (i : Nat) (x y : α),
      (a :: l)[i]? = some x → (a :: l)[i + 1]? = some y → R x y := by
  intro l
  induction l with
  | nil =>
    intro a _ i x y _ hy
    simp at hy
  | cons b l ih =>
    intro a hc i x y hx hy
    obtain ⟨hab, hbl⟩ := List.chain_cons.1 hc
    cases i with
    | zero =>
      simp only [List.getElem?_cons_zero, Option.some.injEq] at hx
      simp only [zero_add, List.getElem?_cons_succ, List.getElem?_cons_zero,
        Option.some.injEq] at hy
      subst hx; subst hy
      exact hab
    | succ i =>
      rw [List.getElem?_cons_succ] at hx hy
      exact ih b hbl i x y hx hy

theorem countP_swapped_ge (p : Flight → Bool) (pre : List Flight) (a b : Flight)
    (post : List Flight) (h : ∀ f ∈ pre ++ a :: b :: post, p f = true) :
    (pre ++ a :: b :: post).length ≤ (swapped pre a b post).countP p + 2 := by
  have h1 : pre.countP p = pre.length :=
    List.countP_eq_length.2 fun f hf => h f (List.mem_append_left _ hf)
  have h2 : post.countP p = post.length :=
    List.countP_eq_length.2 fun f hf =>
      h f (List.mem_append_right _ (List.mem_cons_of_mem _ (List.mem_cons_of_mem _ hf)))
  simp only [swapped, List.countP_append, List.countP_cons, List.length_append,
    List.length_cons, h1, h2]
  omega

theorem frozen_rejects (fmt : Time → String) (pilots : List Pilot) (s : SearchState) (u : Int)
    (hl : 4 ≤ s.currentSolution.length) (hu : 1 ≤ u)
    (hf : ∀ f ∈ s.currentSolution, GoMap.get s.tabuList (generateTabuKey fmt f) = some u) :
    ∃ pre a b post g', s.currentSolution = pre ++ a :: b :: post ∧
      makeMove s.currentSolution s.rng = .ok (swapped pre a b post, g') ∧
      evaluate (swapped pre a b post) pilots + 1000 * ((s.currentSolution.length : Int) - 2)
        ≤ candidateCost fmt pilots s.tabuList (swapped pre a b post) ∧
      ¬ candidateCost fmt pilots s.tabuList (swapped pre a b post)
          < evaluate s.currentSolution pilots ∧
      accepts fmt pilots s = false := by
  obtain ⟨pre, a, b, post, e, _, hm⟩ := makeMove_ok s.currentSolution s.rng (by omega)
  have htabu : ∀ f ∈ pre ++ a :: b :: post,
      (fun f => isTabu s.tabuList (generateTabuKey fmt f)) f = true := by
    intro f hfm
    have := hf f (e ▸ hfm)
    have hpos : 0 < u := by omega
    simp [isTabu, this, hpos]
  have hcount := countP_swapped_ge _ pre a b post htabu
  rw [← e] at hcount
  have hcost : evaluate (swapped pre a b post) pilots
      + 1000 * ((s.currentSolution.length : Int) - 2)
      ≤ candidateCost fmt pilots s.tabuList (swapped pre a b post) := by
    unfold candidateCost
    rw [tabuPenaltyLoop_eq]
    have : ((s.currentSolution.length : Nat) : Int)
        ≤ (((swapped pre a b post).countP
            fun f => isTabu s.tabuList (generateTabuKey fmt f) : Nat) : Int) + 2 := by
      exact_mod_cast hcount
    omega
  have hlen : (swapped pre a b post).length = s.currentSolution.length := by
    rw [swapped_length, ← e]
  have hlow := evaluate_lower (swapped pre a b post) pilots
  have hd := (distinctPilots_bounds (swapped pre a b post)).2 (by omega)
  have hup := evaluate_upper s.currentSolution pilots (by omega)
  rw [hlen] at hlow
  have hrej : ¬ candidateCost fmt pilots s.tabuList (swapped pre a b post)
      < evaluate s.currentSolution pilots := by
    have h4 : (4 : Int) ≤ (s.currentSolution.length : Int) := by exact_mod_cast hl
    have h1 : (1 : Int) ≤ (distinctPilots (swapped pre a b post) : Int) := by exact_mod_cast hd
    omega
  refine ⟨pre, a, b, post, _, e, hm, hcost, hrej, ?_⟩
  simp only [accepts, hm, hrej, decide_False]

theorem frozen_step (fmt : Time → String) (pilots : List Pilot) (tabuTenure : Int)
    (s s' : SearchState) (u : Int)
    (hl : 4 ≤ s.currentSolution.length) (hu : 1 ≤ u)
    (hf : ∀ f ∈ s.currentSolution, GoMap.get s.tabuList (generateTabuKey fmt f) = some u)
    (hb : iterationBody fmt pilots tabuTenure s = .ok s') :
    s'.currentSolution = s.currentSolution ∧
    ∀ f ∈ s'.currentSolution, GoMap.get s'.tabuList (generateTabuKey fmt f) = some (u - 1) := by
  obtain ⟨pre, a, b, post, g', e, hm, _, hrej, _⟩ := frozen_rejects fmt pilots s u hl hu hf
  obtain ⟨pre', a', b', post', g'', _, hm', _, _, hcur, _, htabu⟩ :=
    iterationBody_cases fmt pilots tabuTenure s s' (by omega) hb
  have hsame : swapped pre' a' b' post' = swapped pre a b post := by
    rw [hm] at hm'
    simp only [Except.ok.injEq, Prod.mk.injEq] at hm'
    exact hm'.1.symm
  rw [hsame, if_neg hrej] at hcur htabu
  refine ⟨hcur, fun f hfm => ?_⟩
  rw [hcur] at hfm
  rw [htabu, decay_get, hf f hfm]
  simp only [Option.map_some', decayed]
  rw [if_pos (by omega)]

theorem accepted_step (fmt : Time → String) (pilots : List Pilot) (tabuTenure : Int)
    (s s' : SearchState) (hl : 2 ≤ s.currentSolution.length) (hT : 0 < tabuTenure)
    (ha : accepts fmt pilots s = true)
    (hb : iterationBody fmt pilots tabuTenure s = .ok s') :
    ∀ f ∈ s'.currentSolution,
      GoMap.get s'.tabuList (generateTabuKey fmt f) = some (tabuTenure - 1) := by
  obtain ⟨pre, a, b, post, g', _, hm, _, _, hcur, _, htabu⟩ :=
    iterationBody_cases fmt pilots tabuTenure s s' hl hb
  have hacc : candidateCost fmt pilots s.tabuList (swapped pre a b post)
      < evaluate s.currentSolution pilots := by
    simpa [accepts, hm] using ha
  rw [if_pos hacc] at hcur htabu
  intro f hfm
  rw [hcur] at hfm
  rw [htabu, decay_get, commitLoop_get, if_pos ⟨f, hfm, rfl⟩]
  simp only [Option.map_some', decayed]
  rw [if_pos hT]

theorem getElem?_pred_exists {α : Type} (l : List α) (i : Nat) (y : α)
    (h : l[i + 1]? = some y) : ∃ x, l[i]? = some x := by
  obtain ⟨hi, _⟩ := List.getElem?_eq_some.1 h
  exact ⟨l[i], List.getElem?_eq_getElem (by omega)⟩

theorem freeze_window (fmt : Time → String) (pilots : List Pilot) (tabuTenure : Int)
    (n : Nat) (L : List SearchState) (hn : 4 ≤ n)
    (hlen : ∀ x ∈ L, x.currentSolution.length = n)
    (hchain : ∀ (i : Nat) (x y : SearchState), L[i]? = some x → L[i + 1]? = some y →
      iterationBody fmt pilots tabuTenure x = .ok y)
    (hT : 2 ≤ tabuTenure) (k : Nat) (s : SearchState) (hs : L[k]? = some s)
    (ha : accepts fmt pilots s = true) :
    ∀ j : Nat, 1 ≤ j → (j : Int) ≤ tabuTenure → ∀ sj, L[k + j]? = some sj →
      ∀ f ∈ sj.currentSolution,
        GoMap.get sj.tabuList (generateTabuKey fmt f) = some (tabuTenure - j) := by
  intro j hj
  induction j, hj using Nat.le_induction with
  | base =>
    intro _ sj hsj
    have hb := hchain k s sj hs hsj
    have hl := hlen s (mem_of_getElem?_eq_some L k s hs)
    have := accepted_step fmt pilots tabuTenure s sj (by omega) (by omega) ha hb
    simpa using this
  | succ j hj ih =>
    intro hjT sj hsj
    have hsj' : L[k + j + 1]? = some sj := by rw [← hsj]; rfl
    obtain ⟨x, hx⟩ := getElem?_pred_exists L (k + j) sj hsj'
    have hfx := ih (by push_cast at hjT; omega) x hx
    have hb := hchain (k + j) x sj hx hsj'
    have hl := hlen x (mem_of_getElem?_eq_some L (k + j) x hx)
    obtain ⟨_, h2⟩ := frozen_step fmt pilots tabuTenure x sj (tabuTenure - j) (by omega)
      (by push_cast at hjT; omega) hfx hb
    intro f hf
    rw [h2 f hf]
    push_cast
    congr 1
    ring

/-- In the run of the four-leg day with tenure `3`, the first iteration accepts its candidate
and none of the following five does. -/
theorem TabuSearch_freeze_example :
    (TabuSearchTrace exFmt exFlights4 [pilotA, pilotB] 6 3 exRand).map
        (fun tr => (initialState exFlights4 exRand :: tr).map (accepts exFmt [pilotA, pilotB]))
      = .ok [true, false, false, false, false, false, false] := by
  decide

theorem candidateCost_of_noTabu (fmt : Time → String) (pilots : List Pilot) (m : GoMap Int)
    (c : List Flight) (h : ∀ k t, GoMap.get m k = some t → t ≤ 0) :
    candidateCost fmt pilots m c = evaluate c pilots := by
  unfold candidateCost
  rw [tabuPenaltyLoop_eq]
  have : (c.countP fun f => isTabu m (generateTabuKey fmt f)) = 0 := by
    rw [List.countP_eq_zero]
    intro f _
    unfold isTabu
    cases hk : GoMap.get m (generateTabuKey fmt f) with
    | none => simp
    | some t =>
      have := h _ t hk
      have : ¬ 0 < t := by omega
      simp [this]
  rw [this]
  simp

theorem iterationBody_climb (fmt : Time → String) (pilots : List Pilot) (tabuTenure : Int)
    (hT : tabuTenure ≤ 1) (s : SearchState) (c : ClimbState) (h : ClimbSim s c) :
    (∃ e, iterationBody fmt pilots tabuTenure s = .error e ∧ climbBody pilots c = .error e) ∨
    (∃ s' c', iterationBody fmt pilots tabuTenure s = .ok s' ∧ climbBody pilots c = .ok c' ∧
      ClimbSim s' c') := by
  obtain ⟨hb, hc, hi, hr, hno⟩ := h
  cases hm : makeMove s.currentSolution s.rng with
  | error e =>
    left
    refine ⟨e, by simp only [iterationBody, hm], ?_⟩
    rw [hc, hr] at hm
    simp only [climbBody, hm]
  | ok r =>
    obtain ⟨cand, g'⟩ := r
    right
    obtain ⟨a1, a2, a3, a4, a5⟩ := acceptStep_proj fmt pilots tabuTenure
      { s with iteration := s.iteration + 1, rng := g' } cand
    obtain ⟨u1, u2, u3, u4, u5⟩ := updateBest_proj pilots (acceptStep fmt pilots tabuTenure
      { s with iteration := s.iteration + 1, rng := g' } cand)
    have hcost := candidateCost_of_noTabu fmt pilots s.tabuList cand hno
    have hm' := hm
    rw [hc, hr] at hm'
    have hbody : iterationBody fmt pilots tabuTenure s = .ok
        { updateBest pilots (acceptStep fmt pilots tabuTenure
            { s with iteration := s.iteration + 1, rng := g' } cand) with
          tabuList := decay (updateBest pilots (acceptStep fmt pilots tabuTenure
            { s with iteration := s.iteration + 1, rng := g' } cand)).tabuList } := by
      simp only [iterationBody, hm]
    have hclimb : climbBody pilots c = .ok
        { bestSolution :=
            if evaluate (if evaluate cand pilots < evaluate c.currentSolution pilots then cand
                else c.currentSolution) pilots < evaluate c.bestSolution pilots
            then (if evaluate cand pilots < evaluate c.currentSolution pilots then cand
                else c.currentSolution)
            else c.bestSolution
          currentSolution :=
            if evaluate cand pilots < evaluate c.currentSolution pilots then cand
            else c.currentSolution
          iteration := c.iteration + 1
          rng := g' } := by
      simp only [climbBody, hm']
    refine ⟨_, _, hbody, hclimb, ?_, ?_, ?_, ?_, ?_⟩
    · show (updateBest _ _).bestSolution = _
      rw [u5, a4, a1]
      simp only [hcost, hc, hb]
    · show (updateBest _ _).currentSolution = _
      rw [u1, a4]
      simp only [hcost, hc]
    · show (updateBest _ _).iteration = _
      rw [u2, a2]
      simp only [hi]
    · show (updateBest _ _).rng = _
      rw [u3, a3]
    · intro k t hk
      have hk' : GoMap.get (decay (updateBest pilots (acceptStep fmt pilots tabuTenure
          { s with iteration := s.iteration + 1, rng := g' } cand)).tabuList) k = some t := hk
      rw [u4, a5, decay_get] at hk'
      simp only [hcost] at hk'
      by_cases hacc : evaluate cand pilots < evaluate s.currentSolution pilots
      · rw [if_pos hacc, commitLoop_get] at hk'
        by_cases hex : ∃ f ∈ cand, generateTabuKey fmt f = k
        · rw [if_pos hex] at hk'
          simp only [Option.map_some', Option.some.injEq, decayed] at hk'
          rw [← hk']
          split_ifs <;> omega
        · rw [if_neg hex] at hk'
          cases hg : GoMap.get s.tabuList k with
          | none => rw [hg] at hk'; exact absurd hk' (by simp)
          | some u =>
            rw [hg] at hk'
            simp only [Option.map_some', Option.some.injEq, decayed] at hk'
            have := hno k u hg
            rw [← hk']
            split_ifs <;> omega
      · rw [if_neg hacc] at hk'
        cases hg : GoMap.get s.tabuList k with
        | none => rw [hg] at hk'; exact absurd hk' (by simp)
        | some u =>
          rw [hg] at hk'
          simp only [Option.map_some', Option.some.injEq, decayed] at hk'
          have := hno k u hg
          rw [← hk']
          split_ifs <;> omega

theorem searchLoop_climb (fmt : Time → String) (pilots : List Pilot)
    (maxIterations tabuTenure : Int) (hT : tabuTenure ≤ 1) :
    ∀ (fuel : Nat) (s : SearchState) (c : ClimbState), ClimbSim s c →
      (∃ e, searchLoop fmt pilots maxIterations tabuTenure fuel s = .error e ∧
        climbLoop pilots maxIterations fuel c = .error e) ∨
      (∃ tr c', searchLoop fmt pilots maxIterations tabuTenure fuel s = .ok tr ∧
        climbLoop pilots maxIterations fuel c = .ok c' ∧
        (tr.getLast?.getD s).bestSolution = c'.bestSolution ∧
        ∀ x ∈ tr, ∀ k t, GoMap.get x.tabuList k = some t → t ≤ 0) := by
  intro fuel
  induction fuel with
  | zero =>
    intro s c h
    by_cases hc : s.iteration < maxIterations
    · left
      have hc' : c.iteration < maxIterations := by rw [← h.2.2.1]; exact hc
      exact ⟨.outOfFuel, by simp only [searchLoop, hc, if_true],
        by simp only [climbLoop, hc', if_true]⟩
    · right
      have hc' : ¬ c.iteration < maxIterations := by rw [← h.2.2.1]; exact hc
      exact ⟨[], c, by simp only [searchLoop, hc, if_false],
        by simp only [climbLoop, hc', if_false], h.1, by simp⟩
  | succ fuel ih =>
    intro s c h
    by_cases hc : s.iteration < maxIterations
    · have hc' : c.iteration < maxIterations := by rw [← h.2.2.1]; exact hc
      rcases iterationBody_climb fmt pilots tabuTenure hT s c h with
        ⟨e, e1, e2⟩ | ⟨s', c', e1, e2, hsim⟩
      · left
        exact ⟨e, by simp only [searchLoop, hc, if_true, e1],
          by simp only [climbLoop, hc', if_true, e2]⟩
      · by_cases h0 : evaluate s'.bestSolution pilots = 0
        · right
          have h0' : evaluate c'.bestSolution pilots = 0 := by rw [← hsim.1]; exact h0
          refine ⟨[s'], c', by simp only [searchLoop, hc, if_true, e1, h0],
            by simp only [climbLoop, hc', if_true, e2, h0'], hsim.1, ?_⟩
          intro x hx
          rw [List.mem_singleton] at hx
          subst hx
          exact hsim.2.2.2.2
        · have h0' : ¬ evaluate c'.bestSolution pilots = 0 := by rw [← hsim.1]; exact h0
          rcases ih s' c' hsim with ⟨e, r1, r2⟩ | ⟨tr, c'', r1, r2, r3, r4⟩
          · left
            exact ⟨e, by simp only [searchLoop, hc, if_true, e1, h0, if_false, r1],
              by simp only [climbLoop, hc', if_true, e2, h0', if_false, r2]⟩
          · right
            refine ⟨s' :: tr, c'', by simp only [searchLoop, hc, if_true, e1, h0, if_false, r1],
              by simp only [climbLoop, hc', if_true, e2, h0', if_false, r2], ?_, ?_⟩
            · rw [List.getLast?_cons]
              exact r3
            · intro x hx
              rcases List.mem_cons.1 hx with rfl | hx
              · exact hsim.2.2.2.2
              · exact r4 x hx
    · right
      have hc' : ¬ c.iteration < maxIterations := by rw [← h.2.2.1]; exact hc
      refine ⟨[], c, ?_, ?_, h.1, by simp⟩
      · simp only [searchLoop, hc, if_false]
      · simp only [climbLoop, hc', if_false]

theorem TabuSearch_eq_HillClimb (fmt : Time → String) (flights : List Flight)
    (pilots : List Pilot) (maxIterations tabuTenure : Int) (g : Rand) (hT : tabuTenure ≤ 1) :
    TabuSearch fmt flights pilots maxIterations tabuTenure g
        = HillClimb flights pilots maxIterations g ∧
    ∀ tr, TabuSearchTrace fmt flights pilots maxIterations tabuTenure g = .ok tr →
      ∀ s ∈ initialState flights g :: tr, ∀ k, isTabu s.tabuList k = false := by
  have hsim : ClimbSim (initialState flights g)
      { bestSolution := flights, currentSolution := flights, iteration := 0, rng := g } :=
    ⟨rfl, rfl, rfl, rfl, fun k t hk => absurd hk (by simp [initialState, GoMap.get])⟩
  have hno : ∀ s : SearchState, (∀ k t, GoMap.get s.tabuList k = some t → t ≤ 0) →
      ∀ k, isTabu s.tabuList k = false := by
    intro s hs k
    unfold isTabu
    cases hk : GoMap.get s.tabuList k with
    | none => rfl
    | some t =>
      have := hs k t hk
      have : ¬ 0 < t := by omega
      simp [this]
  rcases searchLoop_climb fmt pilots maxIterations tabuTenure hT maxIterations.toNat _ _ hsim with
    ⟨e, r1, r2⟩ | ⟨tr, c', r1, r2, r3, r4⟩
  · refine ⟨by simp only [TabuSearch, TabuSearchTrace, HillClimb, r1, r2], fun tr htr => ?_⟩
    rw [TabuSearchTrace, r1] at htr
    exact absurd htr (by simp)
  · refine ⟨?_, fun tr' htr => ?_⟩
    · simp only [TabuSearch, TabuSearchTrace, HillClimb, r1, r2, finalState]
      rw [r3]
    · rw [TabuSearchTrace, r1] at htr
      simp only [Except.ok.injEq] at htr
      subst htr
      intro s hs
      rcases List.mem_cons.1 hs with rfl | hs
      · exact hno _ hsim.2.2.2.2
      · exact hno _ (r4 s hs)

/-! ## The names of generated pilots -/

theorem digitChar_value (d : Nat) (h : d < 10) : (Nat.digitChar d).toNat - 48 = d := by
  interval_cases d <;> rfl

theorem toDigitsCore_value :
    ∀ (fuel n : Nat) (ds : List Char), n < fuel →
      ∃ xs, Nat.toDigitsCore 10 fuel n ds = xs ++ ds ∧ digitsValue xs = n := by
  intro fuel
  induction fuel with
  | zero => intro n ds h; exact absurd h (by omega)
  | succ fuel ih =>
    intro n ds h
    unfold Nat.toDigitsCore
    by_cases h0 : n / 10 = 0
    · simp only [h0, if_true]
      refine ⟨[Nat.digitChar (n % 10)], rfl, ?_⟩
      have hlt : n % 10 < 10 := Nat.mod_lt _ (by omega)
      simp only [digitsValue, List.foldl_cons, List.foldl_nil, digitChar_value _ hlt]
      omega
    · simp only [h0, if_false]
      obtain ⟨xs, e1, e2⟩ := ih (n / 10) (Nat.digitChar (n % 10) :: ds) (by omega)
      refine ⟨xs ++ [Nat.digitChar (n % 10)], by rw [e1]; simp, ?_⟩
      have hlt : n % 10 < 10 := Nat.mod_lt _ (by omega)
      unfold digitsValue at e2 ⊢
      rw [List.foldl_append, e2]
      simp only [List.foldl_cons, List.foldl_nil, digitChar_value _ hlt]
      omega

theorem repr_injective (a b : Nat) (h : Nat.repr a = Nat.repr b) : a = b := by
  obtain ⟨xa, ea, va⟩ := toDigitsCore_value (a + 1) a [] (by omega)
  obtain ⟨xb, eb, vb⟩ := toDigitsCore_value (b + 1) b [] (by omega)
  have h' : (Nat.toDigits 10 a).asString = (Nat.toDigits 10 b).asString := h
  have hl : Nat.toDigits 10 a = Nat.toDigits 10 b := by
    have := congrArg String.data h'
    simpa [List.asString] using this
  unfold Nat.toDigits at hl
  rw [ea, eb] at hl
  simp only [List.append_nil] at hl
  rw [← va, ← vb, hl]

theorem pilotName_injective (a b : Nat)
    (h : "Pilot " ++ toString (a + 1) = "Pilot " ++ toString (b + 1)) : a = b := by
  have h1 := congrArg String.data h
  simp only [String.data_append] at h1
  have h2 := List.append_cancel_left h1
  have h3 : toString (a + 1) = toString (b + 1) := String.ext h2
  have := repr_injective (a + 1) (b + 1) h3
  omega

/-! ## The flight generator -/

theorem placeLoop_get (a : Airplane) :
    ∀ (l : List Airplane) (k : Nat) (m : GoMap City),
      GoMap.get ((l.enumFrom k).foldl placeStep m) a =
        match (l.enumFrom k).reverse.find? fun e => decide (e.2 = a) with
        | some e => some (if e.1 % 2 = 0 then Riga else Liepaja)
        | none => GoMap.get m a := by
  intro l
  induction l with
  | nil => intro k m; rfl
  | cons x l ih =>
    intro k m
    rw [List.enumFrom_cons, List.foldl_cons, ih, List.reverse_cons, List.find?_append]
    cases hf : (l.enumFrom (k + 1)).reverse.find? fun e => decide (e.2 = a) with
    | some e => rfl
    | none =>
      simp only [Option.none_or, List.find?_cons, List.find?_nil]
      by_cases hx : x = a
      · subst hx
        simp only [decide_True, placeStep]
        split_ifs <;> simp [GoMap.get_set]
      · simp only [hx, decide_False, placeStep]
        split_ifs <;> simp [GoMap.get_set, hx]

theorem placeLoop_spec (airplanes : List Airplane) (a : Airplane) :
    GoMap.get (airplanes.enum.foldl placeStep []) a = initialLocation airplanes a := by
  rw [List.enum, placeLoop_get, initialLocation, List.enum]
  cases (List.enumFrom 0 airplanes).reverse.find? fun e => decide (e.2 = a) <;> rfl

theorem initialLocation_isSome (airplanes : List Airplane) (a : Airplane) (h : a ∈ airplanes) :
    ∃ c, initialLocation airplanes a = some c ∧ (c = Riga ∨ c = Liepaja) := by
  obtain ⟨i, hi, e⟩ := List.getElem_of_mem h
  have hm : (i, a) ∈ airplanes.enum := by
    rw [List.mk_mem_enum_iff_getElem?, List.getElem?_eq_getElem hi, e]
  have hs : (airplanes.enum.reverse.find? fun e => decide (e.2 = a)).isSome := by
    rw [List.find?_isSome]
    exact ⟨(i, a), List.mem_reverse.2 hm, by simp⟩
  obtain ⟨e', he'⟩ := Option.isSome_iff_exists.1 hs
  refine ⟨if e'.1 % 2 = 0 then Riga else Liepaja, by simp [initialLocation, he'], ?_⟩
  split_ifs
  · exact Or.inl rfl
  · exact Or.inr rfl

theorem Intn_length {α : Type} (l : List α) (g : Rand) (h : l ≠ []) :
    ∃ x, Intn l.length g = .ok (g 0 % l.length, fun k => g (k + 1)) ∧
      l[g 0 % l.length]? = some x ∧ x ∈ l := by
  have hpos : 0 < l.length := List.length_pos.2 h
  have hlt : g 0 % l.length < l.length := Nat.mod_lt _ hpos
  have h1 : ¬ ((l.length : Int) ≤ 0) := by omega
  refine ⟨l[g 0 % l.length], ?_, List.getElem?_eq_getElem hlt, List.getElem_mem _⟩
  simp only [Intn, h1, if_false, Int.toNat_ofNat]

theorem retryCity_spec (cities : List City) (exclude : City) (h : cities ≠ []) :
    ∀ (fuel : Nat) (c : City) (g : Rand),
      retryCity cities exclude fuel c g = .error .outOfFuel ∨
      ∃ c' g', retryCity cities exclude fuel c g = .ok (c', g') ∧ c' ≠ exclude := by
  intro fuel
  induction fuel with
  | zero =>
    intro c g
    by_cases hc : c = exclude
    · left; simp only [retryCity, hc, if_true]
    · right; exact ⟨c, g, by simp only [retryCity, hc, if_false], hc⟩
  | succ fuel ih =>
    intro c g
    by_cases hc : c = exclude
    · obtain ⟨x, e1, e2, _⟩ := Intn_length cities g h
      simp only [retryCity, hc, if_true, e1, e2]
      exact ih x _
    · right; exact ⟨c, g, by simp only [retryCity, hc, if_false], hc⟩

theorem chooseCity_spec (fuel : Nat) (cities : List City) (exclude : City) (g : Rand)
    (h : cities ≠ []) :
    chooseCity fuel cities exclude g = .error .outOfFuel ∨
    ∃ c' g', chooseCity fuel cities exclude g = .ok (c', g') ∧ c' ≠ exclude := by
  obtain ⟨x, e1, e2, _⟩ := Intn_length cities g h
  simp only [chooseCity, e1, e2]
  split_ifs <;> exact retryCity_spec cities exclude h fuel _ _

theorem flightStep_spec (fuel : Nat) (cities : List City) (airplanes : List Airplane)
    (pilots : List Pilot) (baseTime : Time) (i : Nat) (st : GenState)
    (hc : cities ≠ []) (ha : airplanes ≠ []) (hp : pilots ≠ []) :
    flightStep fuel cities airplanes pilots baseTime i st = .error .outOfFuel ∨
    ∃ a toCity p g',
      flightStep fuel cities airplanes pilots baseTime i st = .ok
        { flights := st.flights ++
            [⟨(GoMap.get st.planeLocations a).getD "", toCity, a, p, flightTime baseTime i⟩]
          planeLocations := GoMap.set st.planeLocations a toCity
          rng := g' } ∧
      a ∈ airplanes ∧ p ∈ pilots ∧ toCity ≠ (GoMap.get st.planeLocations a).getD "" := by
  obtain ⟨a, e1, e2, hmem⟩ := Intn_length airplanes st.rng ha
  rcases chooseCity_spec fuel cities ((GoMap.get st.planeLocations a).getD "")
      (fun k => st.rng (k + 1)) hc with e3 | ⟨toCity, g2, e3, hne⟩
  · left
    simp only [flightStep, e1, e2, e3]
  · right
    obtain ⟨p, e4, e5, hpm⟩ := Intn_length pilots g2 hp
    exact ⟨a, toCity, p, fun k => g2 (k + 1), by simp only [flightStep, e1, e2, e3, e4, e5],
      hmem, hpm, hne⟩

theorem planeLocationBefore_append_le (airplanes : List Airplane) (fl : List Flight)
    (f : Flight) (j : Nat) (a : Airplane) (h : j ≤ fl.length) :
    planeLocationBefore airplanes (fl ++ [f]) j a = planeLocationBefore airplanes fl j a := by
  simp only [planeLocationBefore, lastFlightUsing, List.take_append_of_le_length h]

theorem planeLocationBefore_append_last (airplanes : List Airplane) (fl : List Flight)
    (f : Flight) (a : Airplane) :
    planeLocationBefore airplanes (fl ++ [f]) (fl ++ [f]).length a
      = if f.Airplane = a then some f.ToCity
        else planeLocationBefore airplanes fl fl.length a := by
  simp only [planeLocationBefore, lastFlightUsing, List.take_length, List.reverse_append,
    List.reverse_cons, List.reverse_nil, List.nil_append, List.singleton_append,
    List.find?_cons]
  by_cases h : f.Airplane = a <;> simp [h]

theorem flightStep_inv (fuel : Nat) (cities : List City) (airplanes : List Airplane)
    (pilots : List Pilot) (baseTime : Time) (i : Nat) (st : GenState)
    (hc : cities ≠ []) (ha : airplanes ≠ []) (hp : pilots ≠ [])
    (hinv : GenInv airplanes pilots baseTime i st) :
    flightStep fuel cities airplanes pilots baseTime i st = .error .outOfFuel ∨
    ∃ st', flightStep fuel cities airplanes pilots baseTime i st = .ok st' ∧
      GenInv airplanes pilots baseTime (i + 1) st' := by
  rcases flightStep_spec fuel cities airplanes pilots baseTime i st hc ha hp with
    e | ⟨a, toCity, p, g', e, hmem, hpm, hne⟩
  · exact Or.inl e
  · right
    obtain ⟨hlen, hmap, hok⟩ := hinv
    obtain ⟨c, hc1, _⟩ := initialLocation_isSome airplanes a hmem
    have hsome : ∃ c, planeLocationBefore airplanes st.flights st.flights.length a = some c := by
      unfold planeLocationBefore
      cases lastFlightUsing st.flights st.flights.length a with
      | some f => exact ⟨_, rfl⟩
      | none => exact ⟨c, hc1⟩
    obtain ⟨c0, hc0⟩ := hsome
    have hfrom : (GoMap.get st.planeLocations a).getD "" = c0 := by
      rw [hmap a, hc0]; rfl
    rw [hfrom] at e hne
    refine ⟨_, e, ?_, ?_, ?_⟩
    · simp only [List.length_append, List.length_singleton, hlen]
    · intro a'
      show GoMap.get (GoMap.set st.planeLocations a toCity) a' = _
      rw [GoMap.get_set, planeLocationBefore_append_last, hmap a']
    · intro j f hf
      by_cases hj : j < st.flights.length
      · rw [List.getElem?_append_left hj] at hf
        obtain ⟨h1, h2, h3, h4⟩ := hok j f hf
        exact ⟨h1, h2, h3, by rw [planeLocationBefore_append_le _ _ _ _ _ (le_of_lt hj)]; exact h4⟩
      · by_cases hj' : j = st.flights.length
        · subst hj'
          rw [List.getElem?_append_right (le_refl _)] at hf
          simp only [Nat.sub_self, List.getElem?_cons_zero, Option.some.injEq] at hf
          subst hf
          refine ⟨by rw [hlen], fun h => hne h.symm, hpm, ?_⟩
          rw [planeLocationBefore_append_le _ _ _ _ _ (le_refl _)]
          exact hc0
        · have : (st.flights ++ [(⟨c0, toCity, a, p, flightTime baseTime i⟩ : Flight)])[j]?
              = none := by
            apply List.getElem?_eq_none
            simp only [List.length_append, List.length_singleton]
            omega
          rw [this] at hf
          exact absurd hf (by simp)

theorem flightLoop_inv (fuel : Nat) (cities : List City) (airplanes : List Airplane)
    (pilots : List Pilot) (baseTime : Time)
    (hc : cities ≠ []) (ha : airplanes ≠ []) (hp : pilots ≠ []) :
    ∀ (rem i : Nat) (st : GenState), GenInv airplanes pilots baseTime i st →
      flightLoop fuel cities airplanes pilots baseTime rem i st = .error .outOfFuel ∨
      ∃ st', flightLoop fuel cities airplanes pilots baseTime rem i st = .ok st' ∧
        GenInv airplanes pilots baseTime (i + rem) st' := by
  intro rem
  induction rem with
  | zero => intro i st h; exact Or.inr ⟨st, rfl, h⟩
  | succ rem ih =>
    intro i st h
    rcases flightStep_inv fuel cities airplanes pilots baseTime i st hc ha hp h with
      e | ⟨st', e, h'⟩
    · left
      simp only [flightLoop, e]
    · simp only [flightLoop, e]
      rcases ih (i + 1) st' h' with r | ⟨st'', r, h''⟩
      · exact Or.inl r
      · exact Or.inr ⟨st'', r, by rw [show i + (rem + 1) = i + 1 + rem by omega]; exact h''⟩

theorem GenerateFlights_spec (fuel : Nat) (cities : List City) (airplanes : List Airplane)
    (pilots : List Pilot) (numFlights : Nat) (baseTime : Time) (g : Rand)
    (hc : cities ≠ []) (ha : airplanes ≠ []) (hp : pilots ≠ []) :
    GenerateFlights fuel cities airplanes pilots numFlights baseTime g = .error .outOfFuel ∨
    ∃ flights, GenerateFlights fuel cities airplanes pilots numFlights baseTime g = .ok flights ∧
      flights.length = numFlights ∧ FlightsOK airplanes pilots baseTime flights := by
  have h0 : GenInv airplanes pilots baseTime 0
      { flights := [], planeLocations := airplanes.enum.foldl placeStep [], rng := g } := by
    refine ⟨rfl, fun a => ?_, fun j f hf => absurd hf (by simp)⟩
    show GoMap.get (airplanes.enum.foldl placeStep []) a = _
    rw [placeLoop_spec]
    rfl
  rcases flightLoop_inv fuel cities airplanes pilots baseTime hc ha hp numFlights 0 _ h0 with
    e | ⟨st, e, h1, _, h3⟩
  · left
    simp only [GenerateFlights, e]
  · right
    exact ⟨st.flights, by simp only [GenerateFlights, e], by rw [h1]; omega, h3⟩

theorem wrapInt64_eq (x : Int) (h1 : -9223372036854775808 ≤ x) (h2 : x < 9223372036854775808) :
    wrapInt64 x = x := by
  unfold wrapInt64
  norm_num
  omega

theorem flightTime_exact (baseTime : Time) (i : Nat) (h : i ≤ 1281023) :
    flightTime baseTime i = baseTime + (i : Int) * (2 * Hour) := by
  unfold flightTime
  rw [wrapInt64_eq ((i : Int) * 2) (by omega) (by omega)]
  rw [wrapInt64_eq _ (by unfold Hour; omega) (by unfold Hour; omega)]
  ring

theorem flightTime_wraps : flightTime 0 1281024 < flightTime 0 1281023 := by
  decide

theorem getElem?_of_lt {α : Type} (l : List α) (i : Nat) (h : i < l.length) :
    ∃ x, l[i]? = some x :=
  ⟨l[i], List.getElem?_eq_getElem h⟩

theorem flightStep_zeroRand (baseTime : Time) (i : Nat) (st : GenState)
    (hr : st.rng = zeroRand)
    (hl : GoMap.get st.planeLocations Plane1 = some Riga ∨
      GoMap.get st.planeLocations Plane1 = some Liepaja) :
    ∃ st', flightStep 1 [Riga, Jelgava] [Plane1] [pilotA] baseTime i st = .ok st' ∧
      st'.rng = zeroRand ∧
      (GoMap.get st'.planeLocations Plane1 = some Riga ∨
        GoMap.get st'.planeLocations Plane1 = some Liepaja) := by
  have hne : ¬ Liepaja = Riga := by decide
  have hne' : ¬ Riga = Liepaja := by decide
  have hz : (fun k => zeroRand (k + 1)) = zeroRand := rfl
  have hf : (Float64 zeroRand) = (0, zeroRand) := rfl
  have h7 : (0 : Nat) < float07 := by decide
  have hi1 : Intn (([Plane1] : List Airplane).length : Int) zeroRand = .ok (0, zeroRand) := rfl
  have hi2 : Intn (([Riga, Jelgava] : List City).length : Int) zeroRand = .ok (0, zeroRand) := rfl
  have hi3 : Intn (([pilotA] : List Pilot).length : Int) zeroRand = .ok (0, zeroRand) := rfl
  rcases hl with hl | hl
  · have e : flightStep 1 [Riga, Jelgava] [Plane1] [pilotA] baseTime i st = .ok
        { flights := st.flights ++ [⟨Riga, Liepaja, Plane1, pilotA, flightTime baseTime i⟩]
          planeLocations := GoMap.set st.planeLocations Plane1 Liepaja
          rng := zeroRand } := by
      simp only [flightStep, hr, hi1, hi2, hi3, hl, chooseCity, retryCity, hf, h7, overwrite,
        List.getElem?_cons_zero, Option.getD_some, if_true, hne, if_false]
    refine ⟨_, e, rfl, Or.inr ?_⟩
    simp [GoMap.get_set]
  · have e : flightStep 1 [Riga, Jelgava] [Plane1] [pilotA] baseTime i st = .ok
        { flights := st.flights ++ [⟨Liepaja, Riga, Plane1, pilotA, flightTime baseTime i⟩]
          planeLocations := GoMap.set st.planeLocations Plane1 Riga
          rng := zeroRand } := by
      simp only [flightStep, hr, hi1, hi2, hi3, hl, chooseCity, retryCity, hf, h7, overwrite,
        List.getElem?_cons_zero, Option.getD_some, if_true, hne', if_false]
    refine ⟨_, e, rfl, Or.inl ?_⟩
    simp [GoMap.get_set]

theorem flightLoop_zeroRand (baseTime : Time) :
    ∀ (rem i : Nat) (st : GenState), st.rng = zeroRand →
      (GoMap.get st.planeLocations Plane1 = some Riga ∨
        GoMap.get st.planeLocations Plane1 = some Liepaja) →
      ∃ st', flightLoop 1 [Riga, Jelgava] [Plane1] [pilotA] baseTime rem i st = .ok st' := by
  intro rem
  induction rem with
  | zero => intro i st _ _; exact ⟨st, rfl⟩
  | succ rem ih =>
    intro i st hr hl
    obtain ⟨st', e, hr', hl'⟩ := flightStep_zeroRand baseTime i st hr hl
    obtain ⟨st'', e'⟩ := ih (i + 1) st' hr' hl'
    exact ⟨st'', by simp only [flightLoop, e, e']⟩

theorem GenerateFlights_zeroRand (numFlights : Nat) (baseTime : Time) :
    ∃ flights, GenerateFlights 1 [Riga, Jelgava] [Plane1] [pilotA] numFlights baseTime zeroRand
        = .ok flights ∧
      flights.length = numFlights ∧ FlightsOK [Plane1] [pilotA] baseTime flights := by
  rcases GenerateFlights_spec 1 [Riga, Jelgava] [Plane1] [pilotA] numFlights baseTime zeroRand
    (by simp) (by simp) (by simp) with e | h
  · obtain ⟨st, e'⟩ := flightLoop_zeroRand baseTime numFlights 0
      { flights := [], planeLocations := ([Plane1] : List Airplane).enum.foldl placeStep [],
        rng := zeroRand } rfl (Or.inl (by decide))
    simp only [GenerateFlights, e'] at e
    exact absurd e (by simp)
  · exact h

/-- A run of `GenerateFlights` on the cities, airplanes and eight pilots of `main`. -/
theorem GenerateFlights_example :
    GenerateFlights 3 GenerateCities GenerateAirplanes (GeneratePilots 8) 4 0 (fun k => 3 * k + 1)
      = .ok [⟨Liepaja, Jelgava, Plane2, ⟨"Pilot 1", Riga, ""⟩, 0⟩,
          ⟨Liepaja, Daugavpils, Plane4, ⟨"Pilot 3", Riga, ""⟩, 7200000000000⟩,
          ⟨Jelgava, Liepaja, Plane2, ⟨"Pilot 2", Riga, ""⟩, 14400000000000⟩,
          ⟨Riga, Liepaja, Plane1, ⟨"Pilot 1", Riga, ""⟩, 21600000000000⟩] := by
  decide

/-- In a list of airplanes without repetition the initial location of the airplane at
position `k` is decided by the parity of `k`: Riga if even, Liepaja if odd. -/
theorem initialLocation_nodup (airplanes : List Airplane) (hn : airplanes.Nodup) (k : Nat)
    (a : Airplane) (hk : airplanes[k]? = some a) :
    initialLocation airplanes a = some (if k % 2 = 0 then Riga else Liepaja) := by
  unfold initialLocation
  cases hfind : airplanes.enum.reverse.find? fun e => decide (e.2 = a) with
  | none =>
    have h := List.find?_eq_none.1 hfind (k, a)
      (List.mem_reverse.2 (List.mk_mem_enum_iff_getElem?.2 hk))
    simp at h
  | some e =>
    have hp : e.2 = a := by simpa using List.find?_some hfind
    have hm : e ∈ airplanes.enum := List.mem_reverse.1 (List.mem_of_find?_eq_some hfind)
    have he : airplanes[e.1]? = some e.2 := List.mk_mem_enum_iff_getElem?.1 hm
    obtain ⟨h1, e1⟩ := List.getElem?_eq_some.1 he
    obtain ⟨h2, e2⟩ := List.getElem?_eq_some.1 hk
    have : e.1 = k := (hn.getElem_inj_iff).1 (by rw [e1, e2, hp])
    simp [this]

/-- The time of the flight with index `1281023` is the last one that the 64-bit duration
of line 110 holds: the next product `1281024 * 2 * time.Hour` exceeds `2^63 - 1`
nanoseconds and wraps around to a negative duration. -/
theorem flightTime_at_wrap (baseTime : Time) :
    flightTime baseTime 1281023 = baseTime + 9223365600000000000 ∧
    flightTime baseTime 1281024 = baseTime - 9223371273709551616 := by
  have h1 : wrapInt64 (wrapInt64 (((1281023 : Nat) : Int) * 2) * Hour) = 9223365600000000000 := by
    decide
  have h2 : wrapInt64 (wrapInt64 (((1281024 : Nat) : Int) * 2) * Hour) = -9223371273709551616 := by
    decide
  unfold flightTime
  rw [h1, h2]
  exact ⟨rfl, by ring⟩

/-- What `GenerateFlights` guarantees for every number of flights.  For non-empty cities,
airplanes and pilots, a run whose retry loops end returns exactly `numFlights` flights;
every flight has different `FromCity` and `ToCity`, a pilot of the roster, and a `FromCity`
that is the `ToCity` of the closest earlier flight using the same airplane or, for the first
flight of an airplane, its initial location; every flight with an index up to `1281023`
departs that index times two hours after `baseTime`, so that up to this index each flight
departs exactly two hours after the one before. -/
theorem GenerateFlights_properties (fuel : Nat) (cities : List City) (airplanes : List Airplane)
    (pilots : List Pilot) (numFlights : Nat) (baseTime : Time) (g : Rand)
    (hc : cities ≠ []) (ha : airplanes ≠ []) (hp : pilots ≠ [])
    (hrun : GenerateFlights fuel cities airplanes pilots numFlights baseTime g
      ≠ .error .outOfFuel) :
    ∃ flights, GenerateFlights fuel cities airplanes pilots numFlights baseTime g = .ok flights ∧
      flights.length = numFlights ∧
      (∀ (j : Nat) (f : Flight), flights[j]? = some f →
        f.FromCity ≠ f.ToCity ∧ f.FirstPilot ∈ pilots ∧
        planeLocationBefore airplanes flights j f.Airplane = some f.FromCity ∧
        (j ≤ 1281023 → f.Time = baseTime + (j : Int) * (2 * Hour))) ∧
      (∀ (j : Nat) (f f' : Flight), flights[j]? = some f → flights[j + 1]? = some f' →
        j + 1 ≤ 1281023 → f'.Time = f.Time + 2 * Hour ∧ f.Time < f'.Time) := by
  rcases GenerateFlights_spec fuel cities airplanes pilots numFlights baseTime g hc ha hp with
    e | ⟨flights, e, hlen, hok⟩
  · exact absurd e hrun
  · have htime : ∀ (j : Nat) (f : Flight), flights[j]? = some f → j ≤ 1281023 →
        f.Time = baseTime + (j : Int) * (2 * Hour) := by
      intro j f hf hj
      rw [(hok j f hf).1, flightTime_exact baseTime j hj]
    refine ⟨flights, e, hlen, fun j f hf => ?_, fun j f f' hf hf' hj => ?_⟩
    · obtain ⟨_, h2, h3, h4⟩ := hok j f hf
      exact ⟨h2, h3, h4, htime j f hf⟩
    · rw [htime j f hf (by omega), htime (j + 1) f' hf' hj]
      have e1 : ((j + 1 : Nat) : Int) * (2 * Hour) = (j : Int) * (2 * Hour) + 2 * Hour := by
        push_cast
        ring
      have e2 : (0 : Int) < 2 * Hour := by decide
      rw [e1]
      constructor
      · ring
      · linarith

/-- Whatever the cities, airplanes, pilots and random draws: a run that returns `1281025`
flights or more gives the flight with index `1281024` a time `2^64` nanoseconds less than
two hours after the flight before it, hence an earlier time. -/
theorem GenerateFlights_time_wraps (fuel : Nat) (cities : List City) (airplanes : List Airplane)
    (pilots : List Pilot) (numFlights : Nat) (baseTime : Time) (g : Rand) (flights : List Flight)
    (hc : cities ≠ []) (ha : airplanes ≠ []) (hp : pilots ≠ [])
    (hrun : GenerateFlights fuel cities airplanes pilots numFlights baseTime g = .ok flights)
    (hN : 1281025 ≤ numFlights) :
    ∃ f f', flights[1281023]? = some f ∧ flights[1281024]? = some f' ∧
      f'.Time = f.Time + 2 * Hour - 2 ^ 64 ∧ f'.Time < f.Time := by
  rcases GenerateFlights_spec fuel cities airplanes pilots numFlights baseTime g hc ha hp with
    e | ⟨flights', e, hlen, hok⟩
  · rw [hrun] at e
    exact absurd e (by simp)
  · rw [hrun] at e
    obtain rfl : flights = flights' := by simpa using e
    obtain ⟨f, h1⟩ := getElem?_of_lt flights 1281023 (by omega)
    obtain ⟨f', h2⟩ := getElem?_of_lt flights 1281024 (by omega)
    refine ⟨f, f', h1, h2, ?_⟩
    rw [(hok _ _ h1).1, (hok _ _ h2).1, (flightTime_at_wrap baseTime).1,
      (flightTime_at_wrap baseTime).2]
    have e3 : (2 : Int) * Hour = 7200000000000 := by decide
    rw [e3]
    constructor
    · ring
    · linarith

/-- With a repeated airplane the later position decides where the airplane starts: for the
airplanes `[Plane1, Plane1]` the first flight leaves from Liepaja. -/
theorem GenerateFlights_repeated_airplane :
    GenerateFlights 5 [Riga, Jelgava] [Plane1, Plane1] [pilotA] 3 0 exRand
      = .ok [⟨Liepaja, Riga, Plane1, pilotA, 0⟩, ⟨Riga, Liepaja, Plane1, pilotA, 7200000000000⟩,
          ⟨Liepaja, Jelgava, Plane1, pilotA, 14400000000000⟩] := by
  decide

/-! ## The properties of the design document -/

/-- C1. For every schedule and roster, `evaluate` is `H + 100*L + A + 250*J + 100*D`:
`H` counts the inner indices with both cities outside `{Riga, Liepaja}`, `L` the flights
whose pilot has a tracked city different from `FromCity`, `A` sums `-10`/`+50` over the
flights whose pilot has a tracked airplane, `J` counts the indices whose predecessor has the
same pilot name and does not connect, `D` is the number of distinct pilot names.  The
tracked values are seeded from the roster entry of that name and reset by every flight of
the pilot; a flight whose pilot is not in the roster and has not flown before adds nothing
to `L` and `A`. -/
theorem C1_evaluate_cost_formula (fs : List Flight) (ps : List Pilot) :
    evaluate fs ps = (hubCount fs : Int) + 100 * (locationCount fs ps : Int) + airplaneSum fs ps
        + 250 * (jumpCount fs : Int) + 100 * (distinctPilots fs : Int) ∧
    ∀ (i : Nat) (f : Flight), fs[i]? = some f → rosterEntry ps f.FirstPilot.Name = none →
      lastFlightOf fs i f.FirstPilot.Name = none →
        locationConflict fs ps i = false ∧ airplaneTerm fs ps i = 0 := by
  refine ⟨evaluate_eq_cost fs ps, fun i f hf hr hl => ?_⟩
  simp [locationConflict, airplaneTerm, trackedCity, trackedAirplane, hf, hr, hl]

theorem C1_evaluate_cost_formula_witness :
    (evaluate exFlights [pilotA] = (hubCount exFlights : Int)
        + 100 * (locationCount exFlights [pilotA] : Int) + airplaneSum exFlights [pilotA]
        + 250 * (jumpCount exFlights : Int) + 100 * (distinctPilots exFlights : Int)) ∧
    locationConflict exFlights [pilotA] 1 = false ∧ airplaneTerm exFlights [pilotA] 1 = 0 :=
  ⟨(C1_evaluate_cost_formula exFlights [pilotA]).1,
    (C1_evaluate_cost_formula exFlights [pilotA]).2 1 ⟨Jelgava, Riga, Plane1, pilotB, 7200⟩
      (by decide) (by decide) (by decide)⟩

/-- C2. For every schedule of length at least 2, every roster, budget, tenure and random
source, `TabuSearch` returns, the cost of the best schedule never increases from one
iteration to the next (starting from the initial state), and the cost of the returned
schedule is at most the cost of the input. -/
theorem C2_best_cost_nonincreasing (fmt : Time → String) (flights : List Flight)
    (pilots : List Pilot) (maxIterations tabuTenure : Int) (g : Rand)
    (h : 2 ≤ flights.length) :
    ∃ tr, TabuSearchTrace fmt flights pilots maxIterations tabuTenure g = .ok tr ∧
      List.Chain (fun a b => evaluate b.bestSolution pilots ≤ evaluate a.bestSolution pilots)
        (initialState flights g) tr ∧
      ∃ r, TabuSearch fmt flights pilots maxIterations tabuTenure g = .ok r ∧
        evaluate r pilots ≤ evaluate flights pilots := by
  obtain ⟨tr, h1, h2, _, _, h5, h6⟩ :=
    TabuSearch_run fmt flights pilots maxIterations tabuTenure g h
  exact ⟨tr, h1, h5, _, h2, h6.2⟩

theorem C2_best_cost_nonincreasing_witness :
    2 ≤ exFlights.length ∧
    ∃ tr, TabuSearchTrace exFmt exFlights [pilotA, pilotB] 5 2 exRand = .ok tr ∧
      List.Chain (fun a b => evaluate b.bestSolution [pilotA, pilotB]
          ≤ evaluate a.bestSolution [pilotA, pilotB])
        (initialState exFlights exRand) tr ∧
      ∃ r, TabuSearch exFmt exFlights [pilotA, pilotB] 5 2 exRand = .ok r ∧
        evaluate r [pilotA, pilotB] ≤ evaluate exFlights [pilotA, pilotB] :=
  ⟨by decide, C2_best_cost_nonincreasing exFmt exFlights [pilotA, pilotB] 5 2 exRand (by decide)⟩

/-- C3. For every schedule of length at least 2 and every random source, `TabuSearch`
returns a schedule of the same length with the same `FromCity`, `ToCity`, `Airplane` and
`Time` at every index and a permutation of the input's pilots; the current and the best
schedule satisfy the same after every iteration. -/
theorem C3_legs_fixed_pilots_permuted (fmt : Time → String) (flights : List Flight)
    (pilots : List Pilot) (maxIterations tabuTenure : Int) (g : Rand)
    (h : 2 ≤ flights.length) :
    ∃ tr, TabuSearchTrace fmt flights pilots maxIterations tabuTenure g = .ok tr ∧
      (∀ s ∈ tr, SameLegsPermPilots flights s.currentSolution ∧
        SameLegsPermPilots flights s.bestSolution) ∧
      ∃ r, TabuSearch fmt flights pilots maxIterations tabuTenure g = .ok r ∧
        SameLegsPermPilots flights r := by
  obtain ⟨tr, h1, h2, _, h4, _, h6⟩ :=
    TabuSearch_run fmt flights pilots maxIterations tabuTenure g h
  exact ⟨tr, h1, fun s hs => (h4 s hs).1, _, h2, h6.1.2⟩

theorem C3_legs_fixed_pilots_permuted_witness :
    2 ≤ exFlights.length ∧
    ∃ tr, TabuSearchTrace exFmt exFlights [pilotA, pilotB] 5 2 exRand = .ok tr ∧
      (∀ s ∈ tr, SameLegsPermPilots exFlights s.currentSolution ∧
        SameLegsPermPilots exFlights s.bestSolution) ∧
      ∃ r, TabuSearch exFmt exFlights [pilotA, pilotB] 5 2 exRand = .ok r ∧
        SameLegsPermPilots exFlights r :=
  ⟨by decide,
    C3_legs_fixed_pilots_permuted exFmt exFlights [pilotA, pilotB] 5 2 exRand (by decide)⟩

/-- C4. For a schedule `s` of length `n ≥ 2` and a random index `i < n-1`, `makeMove`
returns a schedule of length `n` whose flights at `i` and `i+1` are those of `s` with
exchanged pilots, every other flight being the flight of `s` at that index; `FromCity`,
`ToCity`, `Airplane` and `Time` are unchanged everywhere, and the pilot differs from the
input exactly at `i` and `i+1`, or nowhere when both pilots are equal.  The input is a
value and is not modified. -/
theorem C4_makeMove_swaps_adjacent_pilots (s : List Flight) (i : Nat) (g : Rand)
    (hn : 2 ≤ s.length) (hi : i < s.length - 1) (hg : g 0 = i) :
    ∃ s' a b, makeMove s g = .ok (s', fun k => g (k + 1)) ∧ s'.length = s.length ∧
      s[i]? = some a ∧ s[i + 1]? = some b ∧
      s'[i]? = some { a with FirstPilot := b.FirstPilot } ∧
      s'[i + 1]? = some { b with FirstPilot := a.FirstPilot } ∧
      (∀ k : Nat, k ≠ i → k ≠ i + 1 → s'[k]? = s[k]?) ∧
      (∀ k : Nat, s'[k]?.map legOf = s[k]?.map legOf) ∧
      (∀ k : Nat, s'[k]?.map Flight.FirstPilot ≠ s[k]?.map Flight.FirstPilot ↔
        (k = i ∨ k = i + 1) ∧ a.FirstPilot ≠ b.FirstPilot) := by
  obtain ⟨pre, a, b, post, e, hl, hm⟩ := makeMove_ok s g hn
  have hpre : pre.length = i := by rw [hl, hg, Nat.mod_eq_of_lt hi]
  subst hpre
  subst e
  refine ⟨swapped pre a b post, a, b, hm, swapped_length pre a b post, ?_, ?_, ?_, ?_, ?_, ?_, ?_⟩
  · rw [getElem?_pair]; simp
  · rw [getElem?_pair]; simp
  · rw [swapped, getElem?_pair]; simp
  · rw [swapped, getElem?_pair]; simp
  · intro k h1 h2
    simp only [swapped, getElem?_pair, h1, h2, if_false]
  · intro k
    rw [← List.getElem?_map, ← List.getElem?_map, swapped_leg]
  · intro k
    simp only [swapped, getElem?_pair]
    by_cases h1 : k < pre.length
    · have h2 : k ≠ pre.length := by omega
      have h3 : k ≠ pre.length + 1 := by omega
      simp [h1, h2, h3]
    · by_cases h2 : k = pre.length
      · subst h2
        simp [eq_comm]
      · by_cases h3 : k = pre.length + 1
        · subst h3
          simp
        · simp [h1, h2, h3]

theorem C4_makeMove_swaps_adjacent_pilots_witness :
    2 ≤ exFlights.length ∧ 1 < exFlights.length - 1 ∧ (fun k : Nat => k + 1) 0 = 1 ∧
    ∃ s' a b, makeMove exFlights (fun k => k + 1) = .ok (s', fun k => k + 1 + 1) ∧
      s'.length = exFlights.length ∧
      exFlights[1]? = some a ∧ exFlights[1 + 1]? = some b ∧
      s'[1]? = some { a with FirstPilot := b.FirstPilot } ∧
      s'[1 + 1]? = some { b with FirstPilot := a.FirstPilot } ∧
      (∀ k : Nat, k ≠ 1 → k ≠ 1 + 1 → s'[k]? = exFlights[k]?) ∧
      (∀ k : Nat, s'[k]?.map legOf = exFlights[k]?.map legOf) ∧
      (∀ k : Nat, s'[k]?.map Flight.FirstPilot ≠ exFlights[k]?.map Flight.FirstPilot ↔
        (k = 1 ∨ k = 1 + 1) ∧ a.FirstPilot ≠ b.FirstPilot) :=
  ⟨by decide, by decide, rfl,
    C4_makeMove_swaps_adjacent_pilots exFlights 1 (fun k => k + 1) (by decide) (by decide) rfl⟩

/-- C5. In an iteration with candidate `makeMove(current)`, the candidate cost is
`evaluate(candidate)` plus `1000` for every flight of the candidate whose key is tracked with
a positive tenure.  If that cost is strictly below `evaluate(current)` the candidate becomes
the current schedule and the keys of all its flights (and no other key) are set to
`tabuTenure`; otherwise (ties included) the current schedule and the tabu list are left
as they were.  The tabu list after the iteration is the decayed result of this step. -/
theorem C5_candidate_cost_and_acceptance (fmt : Time → String) (pilots : List Pilot)
    (tabuTenure : Int) (s : SearchState) (h : 2 ≤ s.currentSolution.length) :
    ∃ cand g' s', makeMove s.currentSolution s.rng = .ok (cand, g') ∧
      iterationBody fmt pilots tabuTenure s = .ok s' ∧
      candidateCost fmt pilots s.tabuList cand = evaluate cand pilots
        + 1000 * ((cand.countP fun f => isTabu s.tabuList (generateTabuKey fmt f) : Nat) : Int) ∧
      s'.tabuList = decay (acceptStep fmt pilots tabuTenure s cand).tabuList ∧
      s'.currentSolution = (acceptStep fmt pilots tabuTenure s cand).currentSolution ∧
      (candidateCost fmt pilots s.tabuList cand < evaluate s.currentSolution pilots →
        (acceptStep fmt pilots tabuTenure s cand).currentSolution = cand ∧
        ∀ k, GoMap.get (acceptStep fmt pilots tabuTenure s cand).tabuList k =
          if ∃ f ∈ cand, generateTabuKey fmt f = k then some tabuTenure
          else GoMap.get s.tabuList k) ∧
      (¬ candidateCost fmt pilots s.tabuList cand < evaluate s.currentSolution pilots →
        (acceptStep fmt pilots tabuTenure s cand).currentSolution = s.currentSolution ∧
        (acceptStep fmt pilots tabuTenure s cand).tabuList = s.tabuList) := by
  obtain ⟨pre, a, b, post, e, hl, hm⟩ := makeMove_ok s.currentSolution s.rng h
  obtain ⟨pre', a', b', post', s', e', hl', hb, _, _, hcur, _, htabu⟩ :=
    iterationBody_spec fmt pilots tabuTenure s h
  have hsame : swapped pre' a' b' post' = swapped pre a b post := by
    have h1 : pre'.length = pre.length := by rw [hl, hl']
    have h2 := e.symm.trans e'
    obtain ⟨p1, p2⟩ := List.append_inj h2 h1.symm
    simp only [List.cons.injEq] at p2
    obtain ⟨q1, q2, q3⟩ := p2
    rw [p1, q1, q2, q3]
  rw [hsame] at hcur htabu
  obtain ⟨_, _, _, a4, a5⟩ := acceptStep_proj fmt pilots tabuTenure s (swapped pre a b post)
  refine ⟨swapped pre a b post, _, s', hm, hb, ?_, ?_, ?_, ?_, ?_⟩
  · exact tabuPenaltyLoop_eq fmt s.tabuList _ _
  · rw [htabu, a5]
  · rw [hcur, a4]
  · intro hlt
    refine ⟨by rw [a4, if_pos hlt], fun k => ?_⟩
    rw [a5, if_pos hlt, commitLoop_get]
  · intro hge
    exact ⟨by rw [a4, if_neg hge], by rw [a5, if_neg hge]⟩

theorem C5_candidate_cost_and_acceptance_witness :
    2 ≤ (initialState exFlights exRand).currentSolution.length ∧
    ∃ cand g' s', makeMove (initialState exFlights exRand).currentSolution
        (initialState exFlights exRand).rng = .ok (cand, g') ∧
      iterationBody exFmt [pilotA, pilotB] 2 (initialState exFlights exRand) = .ok s' ∧
      candidateCost exFmt [pilotA, pilotB] (initialState exFlights exRand).tabuList cand
        = evaluate cand [pilotA, pilotB] + 1000 * ((cand.countP fun f =>
            isTabu (initialState exFlights exRand).tabuList (generateTabuKey exFmt f) : Nat) : Int) ∧
      s'.tabuList = decay (acceptStep exFmt [pilotA, pilotB] 2
        (initialState exFlights exRand) cand).tabuList ∧
      s'.currentSolution = (acceptStep exFmt [pilotA, pilotB] 2
        (initialState exFlights exRand) cand).currentSolution ∧
      (candidateCost exFmt [pilotA, pilotB] (initialState exFlights exRand).tabuList cand
          < evaluate (initialState exFlights exRand).currentSolution [pilotA, pilotB] →
        (acceptStep exFmt [pilotA, pilotB] 2 (initialState exFlights exRand) cand).currentSolution
          = cand ∧
        ∀ k, GoMap.get (acceptStep exFmt [pilotA, pilotB] 2
            (initialState exFlights exRand) cand).tabuList k =
          if ∃ f ∈ cand, generateTabuKey exFmt f = k then some 2
          else GoMap.get (initialState exFlights exRand).tabuList k) ∧
      (¬ candidateCost exFmt [pilotA, pilotB] (initialState exFlights exRand).tabuList cand
          < evaluate (initialState exFlights exRand).currentSolution [pilotA, pilotB] →
        (acceptStep exFmt [pilotA, pilotB] 2 (initialState exFlights exRand) cand).currentSolution
          = (initialState exFlights exRand).currentSolution ∧
        (acceptStep exFmt [pilotA, pilotB] 2 (initialState exFlights exRand) cand).tabuList
          = (initialState exFlights exRand).tabuList) :=
  ⟨by decide, C5_candidate_cost_and_acceptance exFmt [pilotA, pilotB] 2
    (initialState exFlights exRand) (by decide)⟩

/-- C6, as the code has it.  For a hub city `H`, any city `X`, any airplane `P`, any
timestamps and a roster `[A, B]` of two differently named pilots with `A` starting at `H`,
the scenario costs `130` when `A.CurrentAirplane` differs from `P` (the case of a roster
built by `GeneratePilots`: the first leg is charged `+50` against the seeded airplane, the
other two earn `-10` each) and `70` when it equals `P` (three rewards of `-10`). -/
theorem C6_scenario_cost (H X : City) (P : Airplane) (A B : Pilot) (t1 t2 t3 : Time)
    (hH : H = Riga ∨ H = Liepaja) (hAB : A.Name ≠ B.Name) (hA : A.CurrentCity = H) :
    evaluate (scenarioFlights H X P A t1 t2 t3) [A, B]
      = if A.CurrentAirplane = P then 70 else 130 := by
  have hBA : ¬ B.Name = A.Name := fun e => hAB e.symm
  have hub : ¬ ∀ x ∈ allowedCities, ¬ H = x ∧ ¬ X = x := by
    intro h
    rcases hH with e | e
    · exact (h Riga (by simp [allowedCities])).1 e
    · exact (h Liepaja (by simp [allowedCities])).1 e
  by_cases hP : A.CurrentAirplane = P
  · simp [evaluate, scenarioFlights, List.enum, List.enumFrom, hubStep, hub, seedStep,
      continuityStep, locationStep, airplaneStep, jumpStep, countStep, GoMap.get, GoMap.set,
      hAB, hBA, hA, hP, isValidFlight]
  · simp [evaluate, scenarioFlights, List.enum, List.enumFrom, hubStep, hub, seedStep,
      continuityStep, locationStep, airplaneStep, jumpStep, countStep, GoMap.get, GoMap.set,
      hAB, hBA, hA, hP, isValidFlight]

theorem C6_scenario_cost_witness :
    (Riga = Riga ∨ Riga = Liepaja) ∧ pilotA.Name ≠ pilotB.Name ∧ pilotA.CurrentCity = Riga ∧
    evaluate (scenarioFlights Riga Jelgava Plane1 pilotA 0 7200 14400) [pilotA, pilotB]
      = if pilotA.CurrentAirplane = Plane1 then 70 else 130 :=
  ⟨Or.inl rfl, by decide, rfl,
    C6_scenario_cost Riga Jelgava Plane1 pilotA pilotB 0 7200 14400 (Or.inl rfl) (by decide) rfl⟩

/-- C6 fails as stated: with the roster of `GeneratePilots 2`, both pilots at the hub Riga,
the scenario costs `130`, not `80`. -/
theorem C6_counterexample :
    GeneratePilots 2 = [pilotA, pilotB] ∧
    evaluate (scenarioFlights Riga Jelgava Plane1 pilotA 0 7200 14400) (GeneratePilots 2) = 130 ∧
    evaluate (scenarioFlights Riga Jelgava Plane1 pilotA 0 7200 14400) (GeneratePilots 2) ≠ 80 := by
  decide

/-- C7. For a schedule with fewer than 2 flights, proposing a move fails (the panic of
`rand.Intn` on a non-positive bound), and so does `TabuSearch` as soon as
`maxIterations ≥ 1`; no schedule is returned. -/
theorem C7_short_schedule_fails (fmt : Time → String) (flights : List Flight)
    (pilots : List Pilot) (maxIterations tabuTenure : Int) (g : Rand)
    (h : flights.length < 2) (hm : 1 ≤ maxIterations) :
    makeMove flights g = .error .invalidArgumentToIntn ∧
    TabuSearch fmt flights pilots maxIterations tabuTenure g = .error .invalidArgumentToIntn := by
  have h1 : (flights.length : Int) - 1 ≤ 0 := by omega
  refine ⟨by simp only [makeMove, Intn, h1, if_true], ?_⟩
  obtain ⟨n, hn⟩ : ∃ n, maxIterations.toNat = n + 1 := ⟨maxIterations.toNat - 1, by omega⟩
  have hc : (initialState flights g).iteration < maxIterations := by
    show (0 : Int) < maxIterations
    omega
  have hb := iterationBody_error fmt pilots tabuTenure (initialState flights g) h
  simp only [TabuSearch, TabuSearchTrace, hn, searchLoop, hc, if_true, hb]

theorem C7_short_schedule_fails_witness :
    [(⟨Riga, Jelgava, Plane1, pilotA, 0⟩ : Flight)].length < 2 ∧ (1 : Int) ≤ 5 ∧
    makeMove [⟨Riga, Jelgava, Plane1, pilotA, 0⟩] exRand = .error .invalidArgumentToIntn ∧
    TabuSearch exFmt [⟨Riga, Jelgava, Plane1, pilotA, 0⟩] [pilotA, pilotB] 5 2 exRand
      = .error .invalidArgumentToIntn :=
  ⟨by decide, by decide,
    C7_short_schedule_fails exFmt [⟨Riga, Jelgava, Plane1, pilotA, 0⟩] [pilotA, pilotB] 5 2 exRand
      (by decide) (by decide)⟩

/-- C8, as the code has it.  `TabuSearch` validates nothing: with a non-positive
`maxIterations` it returns the input schedule unchanged, whatever the schedule and the
roster, and with an empty roster and a schedule of length at least 2 it runs as usual and
returns a schedule. -/
theorem C8_no_input_validation (fmt : Time → String) (flights : List Flight)
    (pilots : List Pilot) (maxIterations tabuTenure : Int) (g : Rand) :
    (maxIterations ≤ 0 →
      TabuSearch fmt flights pilots maxIterations tabuTenure g = .ok flights) ∧
    (2 ≤ flights.length →
      ∃ r, TabuSearch fmt flights [] maxIterations tabuTenure g = .ok r ∧
        SameLegsPermPilots flights r) := by
  constructor
  · intro hm
    have hc : ¬ (initialState flights g).iteration < maxIterations := by
      show ¬ (0 : Int) < maxIterations
      omega
    simp only [TabuSearch, TabuSearchTrace, searchLoop_no_iteration fmt pilots maxIterations
      tabuTenure _ _ hc]
    rfl
  · intro h
    obtain ⟨tr, _, h2, _, _, _, h6⟩ :=
      TabuSearch_run fmt flights [] maxIterations tabuTenure g h
    exact ⟨_, h2, h6.1.2⟩

theorem C8_no_input_validation_witness :
    ((0 : Int) ≤ 0 → TabuSearch exFmt exFlights [pilotA, pilotB] 0 2 exRand = .ok exFlights) ∧
    (2 ≤ exFlights.length →
      ∃ r, TabuSearch exFmt exFlights [] 0 2 exRand = .ok r ∧ SameLegsPermPilots exFlights r) :=
  C8_no_input_validation exFmt exFlights [pilotA, pilotB] 0 2 exRand

/-- C8 fails as stated: with an empty roster and `maxIterations = 5` the search returns a
schedule, and with `maxIterations = 0` (or `-3`) it returns the input; none of the calls
fails. -/
theorem C8_counterexample :
    TabuSearch exFmt exFlights [] 5 2 exRand
      = .ok [⟨Riga, Jelgava, Plane1, pilotB, 0⟩, ⟨Jelgava, Riga, Plane1, pilotA, 7200⟩,
          ⟨Riga, Ventspils, Plane1, pilotA, 14400⟩] ∧
    TabuSearch exFmt exFlights [pilotA, pilotB] 0 2 exRand = .ok exFlights ∧
    TabuSearch exFmt exFlights [pilotA, pilotB] (-3) 2 exRand = .ok exFlights := by
  decide

/-- C9. For every schedule of length at least 2 and `maxIterations ≥ 1`, whatever the roster,
the tenure and the random source: the bound `len-1` passed to `rand.Intn` is positive,
`TabuSearch` returns a schedule, at least one and at most `maxIterations` iterations are
executed (the iteration counter ends at their number), and in every iteration the drawn
index `i` satisfies `i+1 < len`, so that the move succeeds. -/
theorem C9_terminates_without_failure (fmt : Time → String) (flights : List Flight)
    (pilots : List Pilot) (maxIterations tabuTenure : Int) (g : Rand)
    (h : 2 ≤ flights.length) (hm : 1 ≤ maxIterations) :
    0 < (flights.length : Int) - 1 ∧
    ∃ tr, TabuSearchTrace fmt flights pilots maxIterations tabuTenure g = .ok tr ∧
      TabuSearch fmt flights pilots maxIterations tabuTenure g
        = .ok (finalState flights g tr).bestSolution ∧
      1 ≤ tr.length ∧ (tr.length : Int) ≤ maxIterations ∧
      (finalState flights g tr).iteration = tr.length ∧
      ∀ s ∈ initialState flights g :: tr,
        s.currentSolution.length = flights.length ∧
        ∃ i g' c, Intn ((s.currentSolution.length : Int) - 1) s.rng = .ok (i, g') ∧
          i + 1 < s.currentSolution.length ∧
          makeMove s.currentSolution s.rng = .ok (c, g') := by
  refine ⟨by omega, ?_⟩
  obtain ⟨tr, h1, h2, h3, h4, _, _⟩ :=
    TabuSearch_run fmt flights pilots maxIterations tabuTenure g h
  have hne : tr ≠ [] := by
    intro e
    subst e
    exact h3 (show (0 : Int) < maxIterations by omega)
  obtain ⟨l1, l2⟩ := TraceOK.length_le fmt pilots maxIterations tabuTenure tr _ h3 hne
  have hi0 : (initialState flights g).iteration = 0 := rfl
  refine ⟨tr, h1, h2, List.length_pos.2 hne, by omega, ?_, ?_⟩
  · rcases finalState_cases flights g tr with ⟨e, _⟩ | ⟨_, e⟩
    · exact absurd e hne
    · rw [l2 _ e, hi0, zero_add]
  · intro s hs
    have hlen : s.currentSolution.length = flights.length := by
      rcases List.mem_cons.1 hs with rfl | hs
      · rfl
      · exact (h4 s hs).1.1.1
    have h2' : 2 ≤ s.currentSolution.length := by omega
    obtain ⟨i1, i2⟩ := Intn_ok s.currentSolution.length s.rng h2'
    obtain ⟨pre, a, b, post, _, _, hmv⟩ := makeMove_ok s.currentSolution s.rng h2'
    exact ⟨hlen, _, _, _, i1, i2, hmv⟩

theorem C9_terminates_without_failure_witness :
    2 ≤ exFlights.length ∧ (1 : Int) ≤ 5 ∧
    0 < (exFlights.length : Int) - 1 ∧
    ∃ tr, TabuSearchTrace exFmt exFlights [pilotA, pilotB] 5 2 exRand = .ok tr ∧
      TabuSearch exFmt exFlights [pilotA, pilotB] 5 2 exRand
        = .ok (finalState exFlights exRand tr).bestSolution ∧
      1 ≤ tr.length ∧ (tr.length : Int) ≤ 5 ∧
      (finalState exFlights exRand tr).iteration = tr.length ∧
      ∀ s ∈ initialState exFlights exRand :: tr,
        s.currentSolution.length = exFlights.length ∧
        ∃ i g' c, Intn ((s.currentSolution.length : Int) - 1) s.rng = .ok (i, g') ∧
          i + 1 < s.currentSolution.length ∧
          makeMove s.currentSolution s.rng = .ok (c, g') :=
  ⟨by decide, by decide,
    C9_terminates_without_failure exFmt exFlights [pilotA, pilotB] 5 2 exRand
      (by decide) (by decide)⟩

/-- C10. For a schedule of length at least 2, let `tr` list the states at the end of the
executed iterations.  For every `k` with `1 ≤ k < maxIterations` such that iteration `k` is
executed, iteration `k+1` is executed if and only if the best cost at the end of iteration
`k` is not `0`.  Hence, if fewer than `maxIterations` iterations were executed, the returned
schedule has cost exactly `0`. -/
theorem C10_early_exit_iff_zero_cost (fmt : Time → String) (flights : List Flight)
    (pilots : List Pilot) (maxIterations tabuTenure : Int) (g : Rand)
    (h : 2 ≤ flights.length) :
    ∃ tr r, TabuSearchTrace fmt flights pilots maxIterations tabuTenure g = .ok tr ∧
      TabuSearch fmt flights pilots maxIterations tabuTenure g = .ok r ∧
      (∀ k : Nat, 1 ≤ k → (k : Int) < maxIterations → k ≤ tr.length →
        ∃ sk, tr[k - 1]? = some sk ∧
          (k + 1 ≤ tr.length ↔ evaluate sk.bestSolution pilots ≠ 0)) ∧
      ((tr.length : Int) < maxIterations → evaluate r pilots = 0) := by
  obtain ⟨tr, h1, h2, h3, _, _, _⟩ :=
    TabuSearch_run fmt flights pilots maxIterations tabuTenure g h
  have hi0 : (initialState flights g).iteration = 0 := rfl
  have key : ∀ k : Nat, 1 ≤ k → (k : Int) < maxIterations → k ≤ tr.length →
      ∃ sk, tr[k - 1]? = some sk ∧
        (k + 1 ≤ tr.length ↔ evaluate sk.bestSolution pilots ≠ 0) := by
    intro k hk1 hk2 hk3
    obtain ⟨sk, e1, e2, e3⟩ := TraceOK.next_iff fmt pilots maxIterations tabuTenure tr _
      (k - 1) h3 (by omega)
    refine ⟨sk, e1, ?_⟩
    have hlt : sk.iteration < maxIterations := by
      rw [e2, hi0]
      have : ((k - 1 : Nat) : Int) = (k : Int) - 1 := by omega
      omega
    rw [← e3 hlt]
    omega
  refine ⟨tr, _, h1, h2, key, fun hlt => ?_⟩
  have hne : tr ≠ [] := by
    intro e
    subst e
    exact h3 (show (0 : Int) < maxIterations by simpa using hlt)
  have hpos : 0 < tr.length := List.length_pos.2 hne
  obtain ⟨sk, e1, e2⟩ := key tr.length (by omega) hlt (le_refl _)
  have hfin : finalState flights g tr = sk := by
    unfold finalState
    rw [List.getLast?_eq_getElem?, e1]
    rfl
  rw [hfin]
  by_contra hc
  have := e2.2 hc
  omega

theorem C10_early_exit_iff_zero_cost_witness :
    2 ≤ (shuttleFlights 10).length ∧
    ∃ tr r, TabuSearchTrace exFmt (shuttleFlights 10) [pilotC] 5 2 exRand = .ok tr ∧
      TabuSearch exFmt (shuttleFlights 10) [pilotC] 5 2 exRand = .ok r ∧
      (∀ k : Nat, 1 ≤ k → (k : Int) < 5 → k ≤ tr.length →
        ∃ sk, tr[k - 1]? = some sk ∧
          (k + 1 ≤ tr.length ↔ evaluate sk.bestSolution [pilotC] ≠ 0)) ∧
      ((tr.length : Int) < 5 → evaluate r [pilotC] = 0) :=
  ⟨by decide,
    C10_early_exit_iff_zero_cost exFmt (shuttleFlights 10) [pilotC] 5 2 exRand (by decide)⟩

/-- C11. With `tabuTenure ≥ 0`, every tracked key has a tenure `≥ 0` in every state of the
run; in each iteration every tracked key ends with the decayed tenure (one less, a tenure
`0` staying `0`) of the acceptance step, and the acceptance step sets a key to `tabuTenure`
only when the candidate is accepted and the key is that of a flight of the new current
schedule; no other entry is changed by it. -/
theorem C11_tenure_nonneg_decay_refresh (fmt : Time → String) (flights : List Flight)
    (pilots : List Pilot) (maxIterations tabuTenure : Int) (g : Rand)
    (h : 2 ≤ flights.length) (hT : 0 ≤ tabuTenure) :
    ∃ tr, TabuSearchTrace fmt flights pilots maxIterations tabuTenure g = .ok tr ∧
      (∀ s ∈ initialState flights g :: tr, ∀ k t, GoMap.get s.tabuList k = some t → 0 ≤ t) ∧
      List.Chain (TenureStep fmt pilots tabuTenure) (initialState flights g) tr ∧
      ∀ t : Int, 0 ≤ t → decayed t = max (t - 1) 0 := by
  have h0 : ∀ k t, GoMap.get (initialState flights g).tabuList k = some t → 0 ≤ t := by
    intro k t ht
    exact absurd ht (by simp [initialState, GoMap.get])
  obtain ⟨tr, h1, _, _, h4, h5, _⟩ := TabuSearch_run_with fmt flights pilots maxIterations
    tabuTenure g h (fun s => ∀ k t, GoMap.get s.tabuList k = some t → 0 ≤ t)
    (TenureStep fmt pilots tabuTenure) h0
    (fun s s' hl hp hb => by
      have hs := iterationBody_tenure fmt pilots tabuTenure s s' hl hb
      exact ⟨TenureStep.nonneg fmt pilots tabuTenure s s' hT hs hp, hs⟩)
  refine ⟨tr, h1, ?_, h5, ?_⟩
  · intro s hs
    rcases List.mem_cons.1 hs with rfl | hs
    · exact h0
    · exact (h4 s hs).1
  · intro t ht
    unfold decayed
    split_ifs <;> omega

theorem C11_tenure_nonneg_decay_refresh_witness :
    2 ≤ exFlights.length ∧ (0 : Int) ≤ 2 ∧
    ∃ tr, TabuSearchTrace exFmt exFlights [pilotA, pilotB] 5 2 exRand = .ok tr ∧
      (∀ s ∈ initialState exFlights exRand :: tr, ∀ k t,
        GoMap.get s.tabuList k = some t → 0 ≤ t) ∧
      List.Chain (TenureStep exFmt [pilotA, pilotB] 2) (initialState exFlights exRand) tr ∧
      ∀ t : Int, 0 ≤ t → decayed t = max (t - 1) 0 :=
  ⟨by decide, by decide,
    C11_tenure_nonneg_decay_refresh exFmt exFlights [pilotA, pilotB] 5 2 exRand
      (by decide) (by decide)⟩

/-- C12. If the key `k` is tracked with tenure `t > 0` and `T ≥ t`, then after `T` decays
without a commit in between `k` has tenure `0` and is not tabu, while after `j < t` decays it
has tenure `t - j` and is still tabu. -/
theorem C12_decay_to_zero (m : GoMap Int) (k : String) (t T : Int)
    (h : GoMap.get m k = some t) (ht : 0 < t) (hT : t ≤ T) :
    GoMap.get (decay^[T.toNat] m) k = some 0 ∧ isTabu (decay^[T.toNat] m) k = false ∧
    ∀ j : Nat, (j : Int) < t →
      GoMap.get (decay^[j] m) k = some (t - j) ∧ isTabu (decay^[j] m) k = true := by
  have e1 : GoMap.get (decay^[T.toNat] m) k = some 0 := by
    rw [decay_iterate_get, h, Option.map_some', decayed_iterate t _ (le_of_lt ht)]
    have : ((T.toNat : Nat) : Int) = T := Int.toNat_of_nonneg (by omega)
    rw [this]
    split_ifs <;> first | rfl | (congr 1; omega)
  refine ⟨e1, ?_, fun j hj => ?_⟩
  · simp [isTabu, e1]
  · have e2 : GoMap.get (decay^[j] m) k = some (t - j) := by
      rw [decay_iterate_get, h, Option.map_some', decayed_iterate t _ (le_of_lt ht),
        if_pos (le_of_lt hj)]
    refine ⟨e2, ?_⟩
    have : 0 < t - j := by omega
    simp [isTabu, e2, this]

theorem C12_decay_to_zero_witness :
    GoMap.get [("Pilot 1Airplane 10", (2 : Int))] "Pilot 1Airplane 10" = some 2 ∧
    (0 : Int) < 2 ∧ (2 : Int) ≤ 3 ∧
    GoMap.get (decay^[(3 : Int).toNat] [("Pilot 1Airplane 10", (2 : Int))])
      "Pilot 1Airplane 10" = some 0 ∧
    isTabu (decay^[(3 : Int).toNat] [("Pilot 1Airplane 10", (2 : Int))])
      "Pilot 1Airplane 10" = false ∧
    ∀ j : Nat, (j : Int) < 2 →
      GoMap.get (decay^[j] [("Pilot 1Airplane 10", (2 : Int))]) "Pilot 1Airplane 10"
        = some ((2 : Int) - (j : Int)) ∧
      isTabu (decay^[j] [("Pilot 1Airplane 10", (2 : Int))]) "Pilot 1Airplane 10" = true :=
  ⟨by decide, by decide, by decide,
    C12_decay_to_zero [("Pilot 1Airplane 10", (2 : Int))] "Pilot 1Airplane 10" 2 3
      (by decide) (by decide) (by decide)⟩

/-- C13. A schedule of exactly one flight never incurs the hub-routing or the idle-jump
penalty: its cost is `100` plus the location and airplane terms of that flight against the
roster entry of its pilot.  The hub loop of `evaluate` yields `0` on every schedule of at
most two flights, whatever its cities, and the cost of a two-flight schedule is made of the
continuity, idle-jump and pilot-count terms only. -/
theorem C13_one_and_two_flight_schedules (ps : List Pilot) (f f1 f2 : Flight) :
    evaluate [f] ps = 100 +
      (match rosterEntry ps f.FirstPilot.Name with
        | some p => (if p.CurrentCity ≠ f.FromCity then 100 else 0)
            + (if p.CurrentAirplane = f.Airplane then -10 else 50)
        | none => 0) ∧
    (∀ fs : List Flight, fs.length ≤ 2 → fs.enum.foldl (hubStep fs.length) 0 = 0) ∧
    evaluate [f1, f2] ps = 100 * (locationCount [f1, f2] ps : Int) + airplaneSum [f1, f2] ps
      + 250 * (jumpCount [f1, f2] : Int) + 100 * (distinctPilots [f1, f2] : Int) := by
  refine ⟨evaluate_single f ps, hubLoop_short, ?_⟩
  have h := hubLoop_short [f1, f2] (le_refl _)
  rw [hubLoop_eq] at h
  rw [evaluate_eq_cost, h]
  ring

theorem C13_one_and_two_flight_schedules_witness :
    (evaluate [⟨Jelgava, Ventspils, Plane1, pilotA, 0⟩] [pilotA] = 100 +
      (match rosterEntry [pilotA] pilotA.Name with
        | some p => (if p.CurrentCity ≠ Jelgava then 100 else 0)
            + (if p.CurrentAirplane = Plane1 then -10 else 50)
        | none => 0)) ∧
    ([⟨Jelgava, Ventspils, Plane1, pilotA, 0⟩, ⟨Ventspils, Jelgava, Plane1, pilotA, 7200⟩].enum.foldl
      (hubStep 2) (0 : Int) = 0) :=
  ⟨(C13_one_and_two_flight_schedules [pilotA] ⟨Jelgava, Ventspils, Plane1, pilotA, 0⟩
      ⟨Jelgava, Ventspils, Plane1, pilotA, 0⟩ ⟨Ventspils, Jelgava, Plane1, pilotA, 7200⟩).1,
    (C13_one_and_two_flight_schedules [pilotA] ⟨Jelgava, Ventspils, Plane1, pilotA, 0⟩
      ⟨Jelgava, Ventspils, Plane1, pilotA, 0⟩ ⟨Ventspils, Jelgava, Plane1, pilotA, 7200⟩).2.1
      [⟨Jelgava, Ventspils, Plane1, pilotA, 0⟩, ⟨Ventspils, Jelgava, Plane1, pilotA, 7200⟩]
      (by decide)⟩

/-- C14. A pilot whose name is not the name of any assigned pilot can be added to the roster
at any position without changing the cost, and the pilot-count term of `evaluate` (the size
of the map of flown names, times `100`) is `100` times the number of distinct pilot names of
the schedule, an expression in which the roster does not occur. -/
theorem C14_unused_pilot_irrelevant (fs : List Flight) (ps1 ps2 : List Pilot) (p : Pilot)
    (h : ∀ f ∈ fs, f.FirstPilot.Name ≠ p.Name) :
    evaluate fs (ps1 ++ p :: ps2) = evaluate fs (ps1 ++ ps2) ∧
    ((fs.foldl countStep ([] : GoMap Int)).length : Int) * 100
      = 100 * (distinctPilots fs : Int) := by
  refine ⟨evaluate_insert fs ps1 ps2 p h, ?_⟩
  rw [countLoop_length]
  ring

theorem C14_unused_pilot_irrelevant_witness :
    (∀ f ∈ exFlights, f.FirstPilot.Name ≠ pilotC.Name) ∧
    evaluate exFlights ([pilotA] ++ pilotC :: [pilotB]) = evaluate exFlights ([pilotA] ++ [pilotB]) ∧
    ((exFlights.foldl countStep ([] : GoMap Int)).length : Int) * 100
      = 100 * (distinctPilots exFlights : Int) :=
  ⟨by decide, C14_unused_pilot_irrelevant exFlights [pilotA] [pilotB] pilotC (by decide)⟩

/-- C15. The time order that line 110 announces ("Each flight happens 2 hours after the
previous one") is lost at the flight with index `1281024`.  The run of `GenerateFlights`
for `1281025` flights on the cities Riga and Jelgava, one airplane and one pilot, started at
instant `0` with every random draw `0`, returns its `1281025` flights; the flight with index
`1281023` departs `9223365600000000000` nanoseconds after the start, and the next flight
departs `9223371273709551616` nanoseconds before the start instead of two hours later. -/
theorem C15_GenerateFlights_time_order_lost :
    ∃ flights f f', GenerateFlights 1 [Riga, Jelgava] [Plane1] [pilotA] 1281025 0 zeroRand
        = .ok flights ∧
      flights.length = 1281025 ∧
      flights[1281023]? = some f ∧ flights[1281024]? = some f' ∧
      f.Time = 9223365600000000000 ∧ f'.Time = -9223371273709551616 ∧
      f'.Time ≠ f.Time + 2 * Hour ∧ f'.Time < f.Time := by
  obtain ⟨flights, e, hlen, hok⟩ := GenerateFlights_zeroRand 1281025 0
  obtain ⟨f, h1⟩ := getElem?_of_lt flights 1281023 (by omega)
  obtain ⟨f', h2⟩ := getElem?_of_lt flights 1281024 (by omega)
  have t1 : f.Time = 9223365600000000000 := by
    rw [(hok _ _ h1).1, (flightTime_at_wrap 0).1]
    rfl
  have t2 : f'.Time = -9223371273709551616 := by
    rw [(hok _ _ h2).1, (flightTime_at_wrap 0).2]
    rfl
  refine ⟨flights, f, f', e, hlen, h1, h2, t1, t2, ?_, ?_⟩
  · rw [t1, t2]
    decide
  · rw [t1, t2]
    decide

/-- C16. `GeneratePilots count` returns exactly `count` pilots; the pilot at index `i` is
named `"Pilot "` followed by the decimal numeral of `i+1`, starts in Riga and has an empty
airplane; the names are pairwise distinct. -/
theorem C16_GeneratePilots (count : Nat) :
    (GeneratePilots count).length = count ∧
    (∀ i : Nat, i < count →
      (GeneratePilots count)[i]? = some ⟨"Pilot " ++ toString (i + 1), Riga, ""⟩) ∧
    ((GeneratePilots count).map Pilot.Name).Nodup := by
  refine ⟨by simp [GeneratePilots], fun i hi => ?_, ?_⟩
  · simp [GeneratePilots, List.getElem?_range hi]
  · unfold GeneratePilots
    rw [List.map_map]
    refine List.Nodup.map_on ?_ (List.nodup_range count)
    intro a _ b _ hab
    exact pilotName_injective a b hab

theorem C16_GeneratePilots_witness :
    (GeneratePilots 8).length = 8 ∧
    (GeneratePilots 8)[7]? = some ⟨"Pilot 8", Riga, ""⟩ ∧
    ((GeneratePilots 8).map Pilot.Name).Nodup :=
  ⟨(C16_GeneratePilots 8).1, (C16_GeneratePilots 8).2.1 7 (by decide), (C16_GeneratePilots 8).2.2⟩

/-- C17. For every schedule of length at least 2, whatever the roster, the budget, the tenure
and the random source, the best schedule equals the current schedule at the end of every
iteration, and every iteration is a strict descent: an accepted candidate costs strictly less
than the current schedule it replaces, a rejected one leaves the current schedule unchanged. -/
theorem C17_best_is_current_strict_descent (fmt : Time → String) (flights : List Flight)
    (pilots : List Pilot) (maxIterations tabuTenure : Int) (g : Rand)
    (h : 2 ≤ flights.length) :
    ∃ tr, TabuSearchTrace fmt flights pilots maxIterations tabuTenure g = .ok tr ∧
      (∀ s ∈ tr, s.bestSolution = s.currentSolution) ∧
      List.Chain (DescentStep fmt pilots) (initialState flights g) tr ∧
      (∀ c : List Flight, ∀ m : GoMap Int, evaluate c pilots ≤ candidateCost fmt pilots m c) := by
  obtain ⟨tr, h1, _, _, h4, h5, _⟩ := TabuSearch_run_with fmt flights pilots maxIterations
    tabuTenure g h (fun s => s.bestSolution = s.currentSolution) (DescentStep fmt pilots) rfl
    (fun s s' hl hp hb => iterationBody_descent fmt pilots tabuTenure s s' hl hp hb)
  exact ⟨tr, h1, fun s hs => (h4 s hs).1, h5, fun c m => candidateCost_ge fmt pilots m c⟩

theorem C17_best_is_current_strict_descent_witness :
    2 ≤ exFlights.length ∧
    ∃ tr, TabuSearchTrace exFmt exFlights [pilotA, pilotB] 5 2 exRand = .ok tr ∧
      (∀ s ∈ tr, s.bestSolution = s.currentSolution) ∧
      List.Chain (DescentStep exFmt [pilotA, pilotB]) (initialState exFlights exRand) tr ∧
      (∀ c : List Flight, ∀ m : GoMap Int,
        evaluate c [pilotA, pilotB] ≤ candidateCost exFmt [pilotA, pilotB] m c) :=
  ⟨by decide,
    C17_best_is_current_strict_descent exFmt exFlights [pilotA, pilotB] 5 2 exRand (by decide)⟩

/-- C18. For every roster and every schedule of `n` flights with `d` distinct pilot names,
`evaluate ≥ 100*d - 10*n`, and `evaluate ≤ 501*n - 252` when `n ≥ 2`; a non-empty schedule of
fewer than 10 flights costs strictly more than `0`.  Hence for 2 to 9 flights the early exit
never fires: `TabuSearch` executes all `maxIterations` iterations, each ending with a
non-zero best cost; for a single flight it fails in, or never starts, the first iteration. -/
theorem C18_cost_bounds (fmt : Time → String) (fs : List Flight) (ps : List Pilot)
    (maxIterations tabuTenure : Int) (g : Rand) :
    100 * (distinctPilots fs : Int) - 10 * (fs.length : Int) ≤ evaluate fs ps ∧
    (2 ≤ fs.length → evaluate fs ps ≤ 501 * (fs.length : Int) - 252) ∧
    (1 ≤ fs.length → fs.length < 10 → 0 < evaluate fs ps) ∧
    (2 ≤ fs.length → fs.length < 10 →
      ∃ tr, TabuSearchTrace fmt fs ps maxIterations tabuTenure g = .ok tr ∧
        tr.length = maxIterations.toNat ∧ ∀ s ∈ tr, evaluate s.bestSolution ps ≠ 0) ∧
    (fs.length = 1 →
      TabuSearchTrace fmt fs ps maxIterations tabuTenure g = .error .invalidArgumentToIntn ∨
      TabuSearchTrace fmt fs ps maxIterations tabuTenure g = .ok []) := by
  refine ⟨evaluate_lower fs ps, evaluate_upper fs ps, evaluate_pos fs ps, ?_, ?_⟩
  · intro h2 h10
    obtain ⟨tr, h1, _, h3, h4, _, _⟩ := TabuSearch_run fmt fs ps maxIterations tabuTenure g h2
    have hne : ∀ s ∈ tr, evaluate s.bestSolution ps ≠ 0 := by
      intro s hs
      have hl := (h4 s hs).1.2.1
      have := evaluate_pos s.bestSolution ps (by omega) (by omega)
      omega
    have hlen := TraceOK.full_length fmt ps maxIterations tabuTenure tr _ h3 hne
    have hi0 : (initialState fs g).iteration = 0 := rfl
    refine ⟨tr, h1, ?_, hne⟩
    rw [hi0] at hlen
    omega
  · intro h1
    by_cases hc : (initialState fs g).iteration < maxIterations
    · left
      obtain ⟨n, hn⟩ : ∃ n, maxIterations.toNat = n + 1 := by
        have : (0 : Int) < maxIterations := hc
        exact ⟨maxIterations.toNat - 1, by omega⟩
      have hb := iterationBody_error fmt ps tabuTenure (initialState fs g)
        (show (initialState fs g).currentSolution.length < 2 by
          show fs.length < 2
          omega)
      simp only [TabuSearchTrace, hn, searchLoop, hc, if_true, hb]
    · right
      exact searchLoop_no_iteration fmt ps maxIterations tabuTenure _ _ hc

theorem C18_cost_bounds_witness :
    (2 ≤ exFlights.length → evaluate exFlights [pilotA, pilotB] ≤ 501 * (exFlights.length : Int) - 252) ∧
    (1 ≤ exFlights.length → exFlights.length < 10 → 0 < evaluate exFlights [pilotA, pilotB]) ∧
    (2 ≤ exFlights.length ∧ exFlights.length < 10 ∧
      ∃ tr, TabuSearchTrace exFmt exFlights [pilotA, pilotB] 5 2 exRand = .ok tr ∧
        tr.length = (5 : Int).toNat ∧ ∀ s ∈ tr, evaluate s.bestSolution [pilotA, pilotB] ≠ 0) :=
  ⟨(C18_cost_bounds exFmt exFlights [pilotA, pilotB] 5 2 exRand).2.1,
    (C18_cost_bounds exFmt exFlights [pilotA, pilotB] 5 2 exRand).2.2.1,
    by decide, by decide,
    (C18_cost_bounds exFmt exFlights [pilotA, pilotB] 5 2 exRand).2.2.2.1 (by decide) (by decide)⟩

/-- C19. For a schedule of `n ≥ 4` flights and `tabuTenure = T ≥ 2`, let the states of the
run be numbered from the initial state `0`, state `k` being the one in which iteration `k+1`
starts.  If the iteration starting in state `k` accepts its candidate, then for every `j`
with `1 ≤ j ≤ T-1` the state `k+j`, if reached, has all keys of its current schedule tracked
with the positive tenure `T-j`; its candidate then costs at least
`evaluate(candidate) + 1000*(n-2)` with the penalty, which is not below `evaluate(current)`,
and is not accepted. -/
theorem C19_freeze_after_accept (fmt : Time → String) (flights : List Flight)
    (pilots : List Pilot) (maxIterations tabuTenure : Int) (g : Rand)
    (h : 4 ≤ flights.length) (hT : 2 ≤ tabuTenure) :
    ∃ tr, TabuSearchTrace fmt flights pilots maxIterations tabuTenure g = .ok tr ∧
      ∀ (k j : Nat) (s sj : SearchState),
        (initialState flights g :: tr)[k]? = some s → accepts fmt pilots s = true →
        1 ≤ j → (j : Int) ≤ tabuTenure - 1 →
        (initialState flights g :: tr)[k + j]? = some sj →
          accepts fmt pilots sj = false ∧
          (∀ f ∈ sj.currentSolution,
            GoMap.get sj.tabuList (generateTabuKey fmt f) = some (tabuTenure - j) ∧
            isTabu sj.tabuList (generateTabuKey fmt f) = true) ∧
          ∃ cand g', makeMove sj.currentSolution sj.rng = .ok (cand, g') ∧
            evaluate cand pilots + 1000 * ((flights.length : Int) - 2)
              ≤ candidateCost fmt pilots sj.tabuList cand ∧
            ¬ candidateCost fmt pilots sj.tabuList cand
                < evaluate sj.currentSolution pilots := by
  obtain ⟨tr, h1, _, _, h4, h5, _⟩ := TabuSearch_run_with fmt flights pilots maxIterations
    tabuTenure g (by omega) (fun _ => True)
    (fun x y => iterationBody fmt pilots tabuTenure x = .ok y) trivial
    (fun s s' _ _ hb => ⟨trivial, hb⟩)
  have hlen : ∀ x ∈ initialState flights g :: tr, x.currentSolution.length = flights.length := by
    intro x hx
    rcases List.mem_cons.1 hx with rfl | hx
    · rfl
    · exact (h4 x hx).2.1.1.1
  refine ⟨tr, h1, fun k j s sj hs ha hj hjT hsj => ?_⟩
  have hten := freeze_window fmt pilots tabuTenure flights.length _ h hlen
    (chain_getElem? _ tr _ h5) hT k s hs ha j hj (by omega) sj hsj
  have hl := hlen sj (mem_of_getElem?_eq_some _ (k + j) sj hsj)
  obtain ⟨pre, a, b, post, g', _, hm, hcost, hrej, hacc⟩ :=
    frozen_rejects fmt pilots sj (tabuTenure - j) (by omega) (by omega) hten
  refine ⟨hacc, fun f hf => ⟨hten f hf, ?_⟩, _, _, hm, ?_, hrej⟩
  · have hpos : 0 < tabuTenure - (j : Int) := by omega
    simp [isTabu, hten f hf, hpos]
  · rw [← hl]
    exact hcost

theorem C19_freeze_after_accept_witness :
    4 ≤ exFlights4.length ∧ (2 : Int) ≤ 3 ∧
    ∃ tr, TabuSearchTrace exFmt exFlights4 [pilotA, pilotB] 6 3 exRand = .ok tr ∧
      ∀ (k j : Nat) (s sj : SearchState),
        (initialState exFlights4 exRand :: tr)[k]? = some s →
        accepts exFmt [pilotA, pilotB] s = true →
        1 ≤ j → (j : Int) ≤ 3 - 1 →
        (initialState exFlights4 exRand :: tr)[k + j]? = some sj →
          accepts exFmt [pilotA, pilotB] sj = false ∧
          (∀ f ∈ sj.currentSolution,
            GoMap.get sj.tabuList (generateTabuKey exFmt f) = some ((3 : Int) - (j : Int)) ∧
            isTabu sj.tabuList (generateTabuKey exFmt f) = true) ∧
          ∃ cand g', makeMove sj.currentSolution sj.rng = .ok (cand, g') ∧
            evaluate cand [pilotA, pilotB] + 1000 * ((exFlights4.length : Int) - 2)
              ≤ candidateCost exFmt [pilotA, pilotB] sj.tabuList cand ∧
            ¬ candidateCost exFmt [pilotA, pilotB] sj.tabuList cand
                < evaluate sj.currentSolution [pilotA, pilotB] :=
  ⟨by decide, by decide,
    C19_freeze_after_accept exFmt exFlights4 [pilotA, pilotB] 6 3 exRand (by decide) (by decide)⟩

/-- C20. With `tabuTenure ≤ 1` (zero and negative values included) no key is tabu in any
state of the run, and `TabuSearch` returns what plain strict hill-climbing returns: the same
loop without tabu penalty and tabu list, accepting the candidate exactly when
`evaluate(candidate) < evaluate(current)`.  For a schedule of length at least 2 both return
a schedule. -/
theorem C20_small_tenure_is_hill_climbing (fmt : Time → String) (flights : List Flight)
    (pilots : List Pilot) (maxIterations tabuTenure : Int) (g : Rand)
    (h : 2 ≤ flights.length) (hT : tabuTenure ≤ 1) :
    ∃ tr r, TabuSearchTrace fmt flights pilots maxIterations tabuTenure g = .ok tr ∧
      TabuSearch fmt flights pilots maxIterations tabuTenure g = .ok r ∧
      HillClimb flights pilots maxIterations g = .ok r ∧
      ∀ s ∈ initialState flights g :: tr, ∀ k, isTabu s.tabuList k = false := by
  obtain ⟨tr, h1, h2, _⟩ := TabuSearchTrace_spec fmt flights pilots maxIterations tabuTenure g h
  obtain ⟨e1, e2⟩ := TabuSearch_eq_HillClimb fmt flights pilots maxIterations tabuTenure g hT
  exact ⟨tr, _, h1, h2, by rw [← e1]; exact h2, e2 tr h1⟩

theorem C20_small_tenure_is_hill_climbing_witness :
    2 ≤ exFlights.length ∧ (1 : Int) ≤ 1 ∧
    ∃ tr r, TabuSearchTrace exFmt exFlights [pilotA, pilotB] 5 1 exRand = .ok tr ∧
      TabuSearch exFmt exFlights [pilotA, pilotB] 5 1 exRand = .ok r ∧
      HillClimb exFlights [pilotA, pilotB] 5 exRand = .ok r ∧
      ∀ s ∈ initialState exFlights exRand :: tr, ∀ k, isTabu s.tabuList k = false :=
  ⟨by decide, by decide,
    C20_small_tenure_is_hill_climbing exFmt exFlights [pilotA, pilotB] 5 1 exRand
      (by decide) (by decide)⟩

end AirlineCrew
